import Mathlib

/-!
# A shallow embedding of `brainfuck.c`

The interpreter state of the C program (`Program`) is embedded together with the
three standard streams of the process.  Machine integers are natural numbers
with explicit reduction modulo `2 ^ 64` (`uint64_t`) or `256` (`uint8_t`); a
subtraction `x - y` of unsigned integers is the addition of `range - y`
followed by the reduction.
A read outside the program buffer or outside the tape is undefined behaviour in
C; the embedding reports it as a `Fault`.  The loops of the source take a bound
on the number of their iterations as first argument.
-/

namespace Brainfuck

/-! ## Constants -/

/-- The macro `PROGRAM_DATA_SIZE`, written `(1 << 15)` in the source. -/
def PROGRAM_DATA_SIZE : Nat := 1 <<< 15

/-- Number of values of a `uint64_t`. -/
def UINT64_RANGE : Nat := 2 ^ 64

/-- Number of values of a `uint8_t`. -/
def UINT8_RANGE : Nat := 256

/-- The value `EOF` of `<stdio.h>`. -/
def EOF : Int := -1

/-- Character code of `>`. -/
def CMD_RIGHT : Nat := 62
/-- Character code of `<`. -/
def CMD_LEFT : Nat := 60
/-- Character code of `+`. -/
def CMD_INC : Nat := 43
/-- Character code of `-`. -/
def CMD_DEC : Nat := 45
/-- Character code of `.`. -/
def CMD_OUT : Nat := 46
/-- Character code of `,`. -/
def CMD_IN : Nat := 44
/-- Character code of `[`. -/
def CMD_OPEN : Nat := 91
/-- Character code of `]`. -/
def CMD_CLOSE : Nat := 93

/-- The diagnostic printed by the forward scan (source line 115). -/
def MSG_LOOP_END : String := "Could not find loop end\n"

/-- The diagnostic printed by the backward scan (source line 130). -/
def MSG_LOOP_START : String := "Could not find loop start\n"

/-! ## Data model -/

/-- The struct `FileContent`: the bytes of the program text.  The field `size`
of the C struct always holds the number of bytes of `buffer` (it is the operand
of the `malloc` that creates `buffer`), so it is derived from the list. -/
structure FileContent where
  buffer : List Nat
deriving DecidableEq

/-- The field `size` of `FileContent`. -/
def FileContent.size (f : FileContent) : Nat := f.buffer.length

/-- The struct `Program`.  The block that `data` points to is a map from
offsets to bytes; it is allocated once with `PROGRAM_DATA_SIZE` bytes and the
pointer is never reassigned, so the offsets inside the block are exactly those
below `PROGRAM_DATA_SIZE`. -/
structure Program where
  instruction_idx : Nat
  data_idx : Nat
  src_file_content : FileContent
  data : Nat → Nat

/-- The enum `ProgramState`. -/
inductive ProgramState where
  | Done
  | Running
deriving DecidableEq

/-- Undefined behaviour of the C program, and exhaustion of the fuel of the
embedding. -/
inductive Fault where
  | program_read_out_of_bounds
  | data_access_out_of_bounds
  | fuel_exhausted
deriving DecidableEq

/-- The interpreter together with the streams of the process: the unread bytes
of standard input, the bytes written to standard output and the lines written
to standard error, both in emission order. -/
structure Machine where
  program : Program
  stdin : List Nat
  stdout : List Nat
  stderr : List String

/-- The machine `m` with its instruction cursor replaced by `k`. -/
def Machine.with_instruction_idx (m : Machine) (k : Nat) : Machine :=
  { m with program := { m.program with instruction_idx := k } }

/-! ## Operations -/

/-- The function `init_program` (source lines 51 to 64). -/
def init_program (src_file_content : FileContent) : Program :=
  { instruction_idx := 0
    data := fun _ => 0
    data_idx := 0
    src_file_content := src_file_content }

/-- The machine on which `main` calls `execute`: the freshly initialised
program, the given standard input, nothing written yet. -/
def init_machine (src_file_content : FileContent) (input : List Nat) : Machine :=
  { program := init_program src_file_content
    stdin := input
    stdout := []
    stderr := [] }

/-- The function `get_current_command` (source lines 66 to 68): the byte at the
instruction cursor; reading outside the buffer is a fault. -/
def get_current_command (program : Program) : Except Fault Nat :=
  match program.src_file_content.buffer[program.instruction_idx]? with
  | some c => Except.ok c
  | none => Except.error Fault.program_read_out_of_bounds

/-- The function `has_executed_last_command` (source lines 70 to 72). -/
def has_executed_last_command (program : Program) : Bool :=
  decide (program.instruction_idx ≥ program.src_file_content.size)

/-- The tape access `program->data[program->data_idx]` as a read; an offset
outside the allocated block is a fault. -/
def read_cell (program : Program) : Except Fault Nat :=
  if program.data_idx < PROGRAM_DATA_SIZE then
    Except.ok (program.data program.data_idx)
  else
    Except.error Fault.data_access_out_of_bounds

/-- The tape access `program->data[program->data_idx] = v` as a write; an
offset outside the allocated block is a fault. -/
def write_cell (program : Program) (v : Nat) : Except Fault Program :=
  if program.data_idx < PROGRAM_DATA_SIZE then
    Except.ok { program with data := Function.update program.data program.data_idx v }
  else
    Except.error Fault.data_access_out_of_bounds

/-- The library call `getchar()`: the next byte of standard input as an `int`,
or `EOF` when the input is exhausted; returns the remaining input too. -/
def getchar (input : List Nat) : Int × List Nat :=
  match input with
  | [] => (EOF, [])
  | b :: rest => (((b % UINT8_RANGE : Nat) : Int), rest)

/-- The conversion of an `int` to plain `char` made by `char c = getchar();`.
Whether plain `char` is signed is fixed by the platform ABI: it is signed on
x86-64 and unsigned on AArch64 Linux. -/
def int_to_char (char_signed : Bool) (r : Int) : Int :=
  if char_signed then
    (if r % 256 ≥ 128 then r % 256 - 256 else r % 256)
  else
    r % 256

/-- The conversion `(uint8_t)c`. -/
def char_to_uint8 (c : Int) : Nat := (c % 256).toNat

/-- The `while (count)` loop of the `[` case (source lines 112 to 121).  The
first argument bounds the number of iterations. -/
def scan_loop_end : Nat → Machine → Nat → Except Fault Machine
  | fuel, m, count =>
    if count = 0 then Except.ok m
    else
      match fuel with
      | 0 => Except.error Fault.fuel_exhausted
      | fuel + 1 =>
        let m1 := m.with_instruction_idx ((m.program.instruction_idx + 1) % UINT64_RANGE)
        if has_executed_last_command m1.program then
          Except.ok { m1 with stderr := m1.stderr ++ [MSG_LOOP_END] }
        else
          match get_current_command m1.program with
          | Except.error e => Except.error e
          | Except.ok command =>
            let count1 := (count + (if command = CMD_OPEN then 1 else 0)) % UINT64_RANGE
            let count2 :=
              (UINT64_RANGE - (if command = CMD_CLOSE then 1 else 0) + count1) % UINT64_RANGE
            scan_loop_end fuel m1 count2

/-- The `while (count)` loop of the `]` case (source lines 127 to 136).  The
cursor is a `uint64_t`, so the comparison `instruction_idx < 0` of line 129 is
a comparison of natural numbers.  The first argument bounds the number of
iterations. -/
def scan_loop_start : Nat → Machine → Nat → Except Fault Machine
  | fuel, m, count =>
    if count = 0 then Except.ok m
    else
      match fuel with
      | 0 => Except.error Fault.fuel_exhausted
      | fuel + 1 =>
        let m1 := m.with_instruction_idx
          ((UINT64_RANGE - 1 + m.program.instruction_idx) % UINT64_RANGE)
        if m1.program.instruction_idx < 0 then
          Except.ok { m1 with stderr := m1.stderr ++ [MSG_LOOP_START] }
        else
          match get_current_command m1.program with
          | Except.error e => Except.error e
          | Except.ok command =>
            let count1 := (count + (if command = CMD_CLOSE then 1 else 0)) % UINT64_RANGE
            let count2 :=
              (UINT64_RANGE - (if command = CMD_OPEN then 1 else 0) + count1) % UINT64_RANGE
            scan_loop_start fuel m1 count2

/-- The `switch (command)` of `parse_and_execute_command` (source lines 78 to
141).  Each scan is given as many iterations as the program has bytes, which is
never too few on a program shorter than `2 ^ 64` bytes (see
`parse_and_execute_command_fuel`).  The argument `char_signed` tells whether
plain `char` is a signed type, which the C standard leaves to the platform. -/
def execute_switch (char_signed : Bool) (command : Nat) (m : Machine) : Except Fault Machine :=
  if command = CMD_RIGHT then
    let d := (m.program.data_idx + 1) % UINT64_RANGE
    Except.ok { m with program := { m.program with data_idx := d % PROGRAM_DATA_SIZE } }
  else if command = CMD_LEFT then
    let d := if m.program.data_idx = 0 then PROGRAM_DATA_SIZE else m.program.data_idx
    Except.ok { m with program :=
      { m.program with data_idx := (UINT64_RANGE - 1 + d) % UINT64_RANGE } }
  else if command = CMD_INC then
    match read_cell m.program with
    | Except.error e => Except.error e
    | Except.ok v =>
      match write_cell m.program ((v + 1) % UINT8_RANGE) with
      | Except.error e => Except.error e
      | Except.ok p => Except.ok { m with program := p }
  else if command = CMD_DEC then
    match read_cell m.program with
    | Except.error e => Except.error e
    | Except.ok v =>
      match write_cell m.program ((UINT8_RANGE - 1 + v) % UINT8_RANGE) with
      | Except.error e => Except.error e
      | Except.ok p => Except.ok { m with program := p }
  else if command = CMD_OUT then
    match read_cell m.program with
    | Except.error e => Except.error e
    | Except.ok v => Except.ok { m with stdout := m.stdout ++ [v] }
  else if command = CMD_IN then
    let r := getchar m.stdin
    let c := int_to_char char_signed r.1
    let c1 := if c = EOF then 0 else c
    match write_cell m.program (char_to_uint8 c1) with
    | Except.error e => Except.error e
    | Except.ok p => Except.ok { m with program := p, stdin := r.2 }
  else if command = CMD_OPEN then
    match read_cell m.program with
    | Except.error e => Except.error e
    | Except.ok v =>
      if v = 0 then scan_loop_end m.program.src_file_content.size m 1
      else Except.ok m
  else if command = CMD_CLOSE then
    match read_cell m.program with
    | Except.error e => Except.error e
    | Except.ok v =>
      if v ≠ 0 then scan_loop_start m.program.src_file_content.size m 1
      else Except.ok m
  else
    Except.ok m

/-- The function `parse_and_execute_command` (source lines 74 to 147). -/
def parse_and_execute_command (char_signed : Bool) (m : Machine) :
    Except Fault (ProgramState × Machine) :=
  match get_current_command m.program with
  | Except.error e => Except.error e
  | Except.ok command =>
    match execute_switch char_signed command m with
    | Except.error e => Except.error e
    | Except.ok m1 =>
      let m2 := m1.with_instruction_idx ((m1.program.instruction_idx + 1) % UINT64_RANGE)
      Except.ok
        (if has_executed_last_command m2.program then ProgramState.Done
          else ProgramState.Running, m2)

/-- The function `execute` (source lines 149 to 154): the body runs at least
once, and again as long as it returns `Running`.  The first argument bounds the
number of calls of `parse_and_execute_command`. -/
def execute : Nat → Bool → Machine → Except Fault Machine
  | 0, _, _ => Except.error Fault.fuel_exhausted
  | fuel + 1, char_signed, m =>
    match parse_and_execute_command char_signed m with
    | Except.error e => Except.error e
    | Except.ok (ProgramState.Done, m1) => Except.ok m1
    | Except.ok (ProgramState.Running, m1) => execute fuel char_signed m1

/-- The program text given as a string of ASCII characters. -/
def source_of_string (s : String) : FileContent :=
  { buffer := s.toList.map (fun c => c.toNat % UINT8_RANGE) }

/-! ## Specification-level notions -/

/-- Change of a forward nesting counter at the byte `c`: incremented on `[`,
decremented on `]`. -/
def nesting_delta (c : Nat) : Int :=
  if c = CMD_OPEN then 1 else if c = CMD_CLOSE then -1 else 0

/-- The value, after the positions `i + 1 .. i + n`, of a counter started at 1,
incremented on `[` and decremented on `]`. -/
def forward_counter (buffer : List Nat) (i : Nat) : Nat → Int
  | 0 => 1
  | n + 1 => forward_counter buffer i n + nesting_delta (buffer.getD (i + n + 1) 0)

/-- Position `j` holds the `]` matching the `[` at position `i`: it is the least
position after `i` at which the forward counter reaches 0. -/
def is_matching_close (buffer : List Nat) (i j : Nat) : Prop :=
  i < j ∧ j < buffer.length ∧ forward_counter buffer i (j - i) = 0 ∧
    ∀ k, i < k → k < j → forward_counter buffer i (k - i) ≠ 0

/-- The value, after the positions `i - 1` down to `i - n`, of a counter started
at 1, incremented on `]` and decremented on `[`. -/
def backward_counter (buffer : List Nat) (i : Nat) : Nat → Int
  | 0 => 1
  | n + 1 => backward_counter buffer i n - nesting_delta (buffer.getD (i - (n + 1)) 0)

/-- Position `j` holds the `[` matching the `]` at position `i`: it is the
greatest position before `i` at which the backward counter reaches 0. -/
def is_matching_open (buffer : List Nat) (i j : Nat) : Prop :=
  j < i ∧ backward_counter buffer i (i - j) = 0 ∧
    ∀ k, j < k → k < i → backward_counter buffer i (i - k) ≠ 0

/-- The states of the loop of `execute` started on `m0`: `m0` itself, with the
loop variable `state` still `Running`, and every pair returned by a call of
`parse_and_execute_command` made while `state` is `Running`. -/
inductive Reachable (char_signed : Bool) (m0 : Machine) : ProgramState → Machine → Prop where
  | start : Reachable char_signed m0 ProgramState.Running m0
  | step (m m1 : Machine) (st : ProgramState) :
      Reachable char_signed m0 ProgramState.Running m →
      parse_and_execute_command char_signed m = Except.ok (st, m1) →
      Reachable char_signed m0 st m1

/-! ## Notions for runs and for balanced programs -/

/-- The machine `m` with the cell under its data cursor replaced by `v`. -/
def Machine.with_cell (m : Machine) (v : Nat) : Machine :=
  { m with program :=
    { m.program with data := Function.update m.program.data m.program.data_idx v } }

/-- The first `n` iterations of the loop of `execute`, fewer when a call returns
`Done` earlier: the value of the loop variable `state` and the machine after
them. -/
def execute_steps : Nat → Bool → Machine → Except Fault (ProgramState × Machine)
  | 0, _, m => Except.ok (ProgramState.Running, m)
  | n + 1, char_signed, m =>
    match parse_and_execute_command char_signed m with
    | Except.error e => Except.error e
    | Except.ok (ProgramState.Done, m1) => Except.ok (ProgramState.Done, m1)
    | Except.ok (ProgramState.Running, m1) => execute_steps n char_signed m1

/-- The nesting depth before position `k`: the number of `[` minus the number of
`]` among the bytes at positions `0 .. k - 1`. -/
def depth_before (buffer : List Nat) : Nat → Int
  | 0 => 0
  | k + 1 => depth_before buffer k + nesting_delta (buffer.getD k 0)

/-- The brackets of the program are balanced: no prefix closes more loops than
it opens, and the whole program closes as many as it opens. -/
def is_balanced (buffer : List Nat) : Prop :=
  (∀ k, k ≤ buffer.length → 0 ≤ depth_before buffer k) ∧
    depth_before buffer buffer.length = 0

/-- The machine `m` with its unread input replaced by `input`. -/
def Machine.with_stdin (m : Machine) (input : List Nat) : Machine :=
  { m with stdin := input }

/-- The program of end-to-end scenario 1 of the specification. -/
def hello_fragment : FileContent :=
  source_of_string "++++++++[>++++[>++>+++>+++>+<<<<-]>+>+>->>+[<]<-]>>.>---.+++++++..+++."

/-- Whether a run has returned with the given instruction cursor and output and
an empty error stream. -/
def run_ends_with (r : Except Fault Machine) (cursor : Nat) (output : List Nat) : Bool :=
  match r with
  | Except.ok m =>
    decide (m.program.instruction_idx = cursor ∧ m.stdout = output ∧ m.stderr = [])
  | Except.error _ => false

/-! ## Auxiliary lemmas -/

@[simp]
theorem with_instruction_idx_program (m : Machine) (k : Nat) :
    (m.with_instruction_idx k).program =
      { m.program with instruction_idx := k } := rfl

@[simp]
theorem with_instruction_idx_stdin (m : Machine) (k : Nat) :
    (m.with_instruction_idx k).stdin = m.stdin := rfl

@[simp]
theorem with_instruction_idx_stdout (m : Machine) (k : Nat) :
    (m.with_instruction_idx k).stdout = m.stdout := rfl

@[simp]
theorem with_instruction_idx_stderr (m : Machine) (k : Nat) :
    (m.with_instruction_idx k).stderr = m.stderr := rfl

theorem with_instruction_idx_src (m : Machine) (k : Nat) :
    (m.with_instruction_idx k).program.src_file_content = m.program.src_file_content := rfl

theorem with_instruction_idx_data (m : Machine) (k : Nat) :
    (m.with_instruction_idx k).program.data = m.program.data := rfl

theorem with_instruction_idx_data_idx (m : Machine) (k : Nat) :
    (m.with_instruction_idx k).program.data_idx = m.program.data_idx := rfl

theorem with_instruction_idx_instruction_idx (m : Machine) (k : Nat) :
    (m.with_instruction_idx k).program.instruction_idx = k := rfl

@[simp]
theorem with_instruction_idx_twice (m : Machine) (k l : Nat) :
    (m.with_instruction_idx k).with_instruction_idx l = m.with_instruction_idx l := rfl

theorem forward_counter_le (buffer : List Nat) (i n : Nat) :
    forward_counter buffer i n ≤ (n : Int) + 1 := by
  induction n with
  | zero => simp [forward_counter]
  | succ n ih =>
    simp only [forward_counter, nesting_delta]
    split_ifs <;> push_cast <;> omega

theorem scan_loop_end_finds (m : Machine) (i j : Nat)
    (hsize : m.program.src_file_content.size < UINT64_RANGE)
    (hj : j < m.program.src_file_content.size)
    (hzero : forward_counter m.program.src_file_content.buffer i (j - i) = 0)
    (hmin : ∀ k, i < k → k < j →
      forward_counter m.program.src_file_content.buffer i (k - i) ≠ 0) :
    ∀ (d k fuel count : Nat), k + d = j → i ≤ k →
      (count : Int) = forward_counter m.program.src_file_content.buffer i (k - i) →
      d ≤ fuel →
      scan_loop_end fuel (m.with_instruction_idx k) count
        = Except.ok (m.with_instruction_idx j) := by
  intro d
  induction d with
  | zero =>
    intro k fuel count hk _ hc _
    have hkj : k = j := by omega
    subst hkj
    have h0 : count = 0 := by
      have := hc.trans hzero
      exact_mod_cast this
    unfold scan_loop_end
    simp [h0]
  | succ d ih =>
    intro k fuel count hk hik hc hfuel
    have hcne : count ≠ 0 := by
      intro h0
      rcases Nat.eq_or_lt_of_le hik with h | h
      · subst h
        simp [forward_counter, h0] at hc
      · have := hmin k h (by omega)
        apply this
        rw [← hc, h0]; rfl
    have hcle := forward_counter_le m.program.src_file_content.buffer i (k - i)
    obtain ⟨fuel, rfl⟩ : ∃ f, fuel = f + 1 := ⟨fuel - 1, by omega⟩
    have hlen : k + 1 < m.program.src_file_content.buffer.length := by
      simp only [FileContent.size] at hj; omega
    have hsz : m.program.src_file_content.buffer.length < 2 ^ 64 := hsize
    have hmod : (k + 1) % UINT64_RANGE = k + 1 := by
      apply Nat.mod_eq_of_lt; simp only [UINT64_RANGE]; omega
    unfold scan_loop_end
    simp only [hcne, if_false, with_instruction_idx_program, hmod, has_executed_last_command,
      FileContent.size, get_current_command, with_instruction_idx_twice]
    rw [if_neg (by simp; omega)]
    rw [List.getElem?_eq_getElem hlen]
    simp only []
    apply ih (k + 1) fuel _ (by omega) (by omega) _ (by omega)
    have hki : k + 1 - i = (k - i) + 1 := by omega
    rw [hki, forward_counter, ← hc]
    have hidx : i + (k - i) + 1 = k + 1 := by omega
    rw [hidx, List.getD_eq_getElem _ _ hlen]
    simp only [nesting_delta, UINT64_RANGE, CMD_OPEN, CMD_CLOSE]
    have hc1 : (1 : Int) ≤ count := by omega
    have hc2 : (count : Int) ≤ k - i + 1 := by rw [hc]; exact_mod_cast hcle
    split_ifs with h1 h2 h2
    · omega
    · omega
    · omega
    · omega


theorem backward_counter_le (buffer : List Nat) (i n : Nat) :
    backward_counter buffer i n ≤ (n : Int) + 1 := by
  induction n with
  | zero => simp [backward_counter]
  | succ n ih =>
    simp only [backward_counter, nesting_delta]
    split_ifs <;> push_cast <;> omega

theorem scan_loop_start_finds (m : Machine) (i j : Nat)
    (hsize : m.program.src_file_content.size < UINT64_RANGE)
    (hi : i < m.program.src_file_content.size)
    (hzero : backward_counter m.program.src_file_content.buffer i (i - j) = 0)
    (hmin : ∀ k, j < k → k < i →
      backward_counter m.program.src_file_content.buffer i (i - k) ≠ 0) :
    ∀ (d k fuel count : Nat), j + d = k → k ≤ i →
      (count : Int) = backward_counter m.program.src_file_content.buffer i (i - k) →
      d ≤ fuel →
      scan_loop_start fuel (m.with_instruction_idx k) count
        = Except.ok (m.with_instruction_idx j) := by
  intro d
  induction d with
  | zero =>
    intro k fuel count hk _ hc _
    have hkj : k = j := by omega
    subst hkj
    have h0 : count = 0 := by
      have := hc.trans hzero
      exact_mod_cast this
    unfold scan_loop_start
    simp [h0]
  | succ d ih =>
    intro k fuel count hk hki hc hfuel
    have hcne : count ≠ 0 := by
      intro h0
      rcases Nat.eq_or_lt_of_le hki with h | h
      · subst h
        simp [backward_counter, h0] at hc
      · have := hmin k (by omega) h
        apply this
        rw [← hc, h0]; rfl
    have hcle := backward_counter_le m.program.src_file_content.buffer i (i - k)
    obtain ⟨fuel, rfl⟩ : ∃ f, fuel = f + 1 := ⟨fuel - 1, by omega⟩
    have hlen : k - 1 < m.program.src_file_content.buffer.length := by
      simp only [FileContent.size] at hi; omega
    have hsz : m.program.src_file_content.buffer.length < 2 ^ 64 := hsize
    have hmod : (UINT64_RANGE - 1 + k) % UINT64_RANGE = k - 1 := by
      simp only [UINT64_RANGE]; omega
    unfold scan_loop_start
    simp only [hcne, if_false, with_instruction_idx_program, hmod, Nat.not_lt_zero,
      get_current_command, with_instruction_idx_twice]
    rw [List.getElem?_eq_getElem hlen]
    simp only []
    apply ih (k - 1) fuel _ (by omega) (by omega) _ (by omega)
    have hik : i - (k - 1) = (i - k) + 1 := by omega
    rw [hik, backward_counter, ← hc]
    have hidx : i - (i - k + 1) = k - 1 := by omega
    rw [hidx, List.getD_eq_getElem _ _ hlen]
    simp only [nesting_delta, UINT64_RANGE, CMD_OPEN, CMD_CLOSE]
    have hc1 : (1 : Int) ≤ count := by omega
    have hc2 : (count : Int) ≤ ((i - k : Nat) : Int) + 1 := by rw [hc]; exact hcle
    have hi2 : i < m.program.src_file_content.buffer.length := hi
    split_ifs with h1 h2 h2
    · omega
    · omega
    · omega
    · omega

theorem scan_loop_end_unmatched (m : Machine) (i : Nat)
    (hsize : m.program.src_file_content.size < UINT64_RANGE)
    (hopen : ∀ k, i < k → k < m.program.src_file_content.size →
      forward_counter m.program.src_file_content.buffer i (k - i) ≠ 0) :
    ∀ (d k fuel count : Nat), k + d + 1 = m.program.src_file_content.size → i ≤ k →
      (count : Int) = forward_counter m.program.src_file_content.buffer i (k - i) →
      d + 1 ≤ fuel →
      scan_loop_end fuel (m.with_instruction_idx k) count
        = Except.ok (Machine.with_instruction_idx
            { m with stderr := m.stderr ++ [MSG_LOOP_END] } m.program.src_file_content.size) := by
  have hsz : m.program.src_file_content.buffer.length < 2 ^ 64 := hsize
  have hcount : ∀ (k count : Nat), i ≤ k → k < m.program.src_file_content.size →
      (count : Int) = forward_counter m.program.src_file_content.buffer i (k - i) →
      count ≠ 0 := by
    intro k count hik hk hc h0
    rcases Nat.eq_or_lt_of_le hik with h | h
    · subst h
      simp [forward_counter, h0] at hc
    · apply hopen k h hk
      rw [← hc, h0]; rfl
  intro d
  induction d with
  | zero =>
    intro k fuel count hk hik hc hfuel
    have hcne := hcount k count hik (by omega) hc
    obtain ⟨fuel, rfl⟩ : ∃ f, fuel = f + 1 := ⟨fuel - 1, by omega⟩
    have hmod : (k + 1) % UINT64_RANGE = m.program.src_file_content.size := by
      rw [Nat.mod_eq_of_lt (by omega)]; omega
    unfold scan_loop_end
    simp only [hcne, if_false, with_instruction_idx_program, hmod, has_executed_last_command]
    simp [Machine.with_instruction_idx]
  | succ d ih =>
    intro k fuel count hk hik hc hfuel
    have hcne := hcount k count hik (by omega) hc
    have hcle := forward_counter_le m.program.src_file_content.buffer i (k - i)
    obtain ⟨fuel, rfl⟩ : ∃ f, fuel = f + 1 := ⟨fuel - 1, by omega⟩
    have hlen : k + 1 < m.program.src_file_content.buffer.length := by
      simp only [FileContent.size] at hk; omega
    have hmod : (k + 1) % UINT64_RANGE = k + 1 := by
      apply Nat.mod_eq_of_lt; simp only [UINT64_RANGE]; omega
    unfold scan_loop_end
    simp only [hcne, if_false, with_instruction_idx_program, hmod, has_executed_last_command,
      FileContent.size, get_current_command, with_instruction_idx_twice]
    rw [if_neg (by simp; omega)]
    rw [List.getElem?_eq_getElem hlen]
    simp only []
    apply ih (k + 1) fuel _ (by omega) (by omega) _ (by omega)
    have hki : k + 1 - i = (k - i) + 1 := by omega
    rw [hki, forward_counter, ← hc]
    have hidx : i + (k - i) + 1 = k + 1 := by omega
    rw [hidx, List.getD_eq_getElem _ _ hlen]
    simp only [nesting_delta, UINT64_RANGE, CMD_OPEN, CMD_CLOSE]
    have hc1 : (1 : Int) ≤ count := by omega
    have hc2 : (count : Int) ≤ k - i + 1 := by rw [hc]; exact_mod_cast hcle
    split_ifs with h1 h2 h2
    · omega
    · omega
    · omega
    · omega

theorem execute_of_done (char_signed : Bool) (m m1 : Machine) (fuel : Nat)
    (h : parse_and_execute_command char_signed m = Except.ok (ProgramState.Done, m1)) :
    execute (fuel + 1) char_signed m = Except.ok m1 := by
  simp only [execute, h]

theorem get_current_command_ok_lt (p : Program) (c : Nat)
    (h : get_current_command p = Except.ok c) :
    p.instruction_idx < p.src_file_content.size := by
  unfold get_current_command at h
  by_contra hge
  rw [List.getElem?_eq_none (by simp only [FileContent.size] at hge; omega)] at h
  simp at h

theorem get_current_command_ok_get (p : Program) (c : Nat)
    (h : get_current_command p = Except.ok c) :
    p.src_file_content.buffer[p.instruction_idx]? = some c := by
  unfold get_current_command at h
  split at h
  · rename_i c1 hc1
    simp only [Except.ok.injEq] at h
    rw [hc1, h]
  · simp at h

theorem scan_loop_end_frame :
    ∀ (fuel : Nat) (m : Machine) (count : Nat) (m1 : Machine),
      scan_loop_end fuel m count = Except.ok m1 →
      m.program.instruction_idx < m.program.src_file_content.size →
      m1.program.src_file_content = m.program.src_file_content ∧
        m1.program.data = m.program.data ∧
        m1.program.data_idx = m.program.data_idx ∧
        m1.stdin = m.stdin ∧ m1.stdout = m.stdout ∧
        m1.program.instruction_idx ≤ m.program.src_file_content.size := by
  intro fuel
  induction fuel with
  | zero =>
    intro m count m1 h hlt
    unfold scan_loop_end at h
    by_cases hc : count = 0
    · simp only [hc, if_true, Except.ok.injEq] at h
      subst h
      exact ⟨rfl, rfl, rfl, rfl, rfl, Nat.le_of_lt hlt⟩
    · simp only [hc, if_false] at h
      cases h
  | succ fuel ih =>
    intro m count m1 h hlt
    unfold scan_loop_end at h
    by_cases hc : count = 0
    · simp only [hc, if_true, Except.ok.injEq] at h
      subst h
      exact ⟨rfl, rfl, rfl, rfl, rfl, Nat.le_of_lt hlt⟩
    · simp only [hc, if_false] at h
      have hle : (m.program.instruction_idx + 1) % UINT64_RANGE
          ≤ m.program.src_file_content.size :=
        le_trans (Nat.mod_le _ _) hlt
      split at h
      · simp only [Except.ok.injEq] at h
        subst h
        exact ⟨rfl, rfl, rfl, rfl, rfl, hle⟩
      · split at h
        · simp at h
        · rename_i command hcmd
          obtain ⟨h1, h2, h3, h4, h5, h6⟩ :=
            ih _ _ _ h (get_current_command_ok_lt _ _ hcmd)
          simp only [with_instruction_idx_program, with_instruction_idx_stdin,
            with_instruction_idx_stdout] at h1 h2 h3 h4 h5 h6
          exact ⟨h1, h2, h3, h4, h5, h6⟩

theorem scan_loop_start_frame :
    ∀ (fuel : Nat) (m : Machine) (count : Nat) (m1 : Machine),
      scan_loop_start fuel m count = Except.ok m1 →
      m.program.instruction_idx < m.program.src_file_content.size →
      m1.program.src_file_content = m.program.src_file_content ∧
        m1.program.data = m.program.data ∧
        m1.program.data_idx = m.program.data_idx ∧
        m1.stdin = m.stdin ∧ m1.stdout = m.stdout ∧ m1.stderr = m.stderr ∧
        m1.program.instruction_idx < m.program.src_file_content.size := by
  intro fuel
  induction fuel with
  | zero =>
    intro m count m1 h hlt
    unfold scan_loop_start at h
    by_cases hc : count = 0
    · simp only [hc, if_true, Except.ok.injEq] at h
      subst h
      exact ⟨rfl, rfl, rfl, rfl, rfl, rfl, hlt⟩
    · simp only [hc, if_false] at h
      cases h
  | succ fuel ih =>
    intro m count m1 h hlt
    unfold scan_loop_start at h
    by_cases hc : count = 0
    · simp only [hc, if_true, Except.ok.injEq] at h
      subst h
      exact ⟨rfl, rfl, rfl, rfl, rfl, rfl, hlt⟩
    · simp only [hc, if_false, Nat.not_lt_zero] at h
      split at h
      · simp at h
      · rename_i command hcmd
        obtain ⟨h1, h2, h3, h4, h5, h6, h7⟩ :=
          ih _ _ _ h (get_current_command_ok_lt _ _ hcmd)
        rw [with_instruction_idx_src] at h7
        exact ⟨h1.trans (with_instruction_idx_src _ _), h2.trans (with_instruction_idx_data _ _),
          h3.trans (with_instruction_idx_data_idx _ _), h4.trans (with_instruction_idx_stdin _ _),
          h5.trans (with_instruction_idx_stdout _ _), h6.trans (with_instruction_idx_stderr _ _),
          h7⟩

/-! ### The branches of the switch -/

theorem execute_switch_right (char_signed : Bool) (m : Machine) :
    execute_switch char_signed CMD_RIGHT m =
      Except.ok { m with program := { m.program with
        data_idx := ((m.program.data_idx + 1) % UINT64_RANGE) % PROGRAM_DATA_SIZE } } := rfl

theorem execute_switch_left (char_signed : Bool) (m : Machine) :
    execute_switch char_signed CMD_LEFT m =
      Except.ok { m with program := { m.program with
        data_idx := (UINT64_RANGE - 1 + (if m.program.data_idx = 0 then PROGRAM_DATA_SIZE
          else m.program.data_idx)) % UINT64_RANGE } } := rfl

theorem execute_switch_inc (char_signed : Bool) (m : Machine) :
    execute_switch char_signed CMD_INC m =
      if m.program.data_idx < PROGRAM_DATA_SIZE then
        Except.ok { m with program := { m.program with
          data := Function.update m.program.data m.program.data_idx
            ((m.program.data m.program.data_idx + 1) % UINT8_RANGE) } }
      else Except.error Fault.data_access_out_of_bounds := by
  by_cases h : m.program.data_idx < PROGRAM_DATA_SIZE
  · simp [execute_switch, read_cell, write_cell, h, CMD_INC, CMD_RIGHT, CMD_LEFT]
  · simp [execute_switch, read_cell, write_cell, h, CMD_INC, CMD_RIGHT, CMD_LEFT]

theorem execute_switch_dec (char_signed : Bool) (m : Machine) :
    execute_switch char_signed CMD_DEC m =
      if m.program.data_idx < PROGRAM_DATA_SIZE then
        Except.ok { m with program := { m.program with
          data := Function.update m.program.data m.program.data_idx
            ((UINT8_RANGE - 1 + m.program.data m.program.data_idx) % UINT8_RANGE) } }
      else Except.error Fault.data_access_out_of_bounds := by
  by_cases h : m.program.data_idx < PROGRAM_DATA_SIZE
  · simp [execute_switch, read_cell, write_cell, h, CMD_DEC, CMD_INC, CMD_RIGHT, CMD_LEFT]
  · simp [execute_switch, read_cell, write_cell, h, CMD_DEC, CMD_INC, CMD_RIGHT, CMD_LEFT]

theorem execute_switch_out (char_signed : Bool) (m : Machine) :
    execute_switch char_signed CMD_OUT m =
      if m.program.data_idx < PROGRAM_DATA_SIZE then
        Except.ok { m with stdout := m.stdout ++ [m.program.data m.program.data_idx] }
      else Except.error Fault.data_access_out_of_bounds := by
  by_cases h : m.program.data_idx < PROGRAM_DATA_SIZE
  · simp [execute_switch, read_cell, h, CMD_OUT, CMD_DEC, CMD_INC, CMD_RIGHT, CMD_LEFT]
  · simp [execute_switch, read_cell, h, CMD_OUT, CMD_DEC, CMD_INC, CMD_RIGHT, CMD_LEFT]

theorem execute_switch_in (char_signed : Bool) (m : Machine) :
    execute_switch char_signed CMD_IN m =
      if m.program.data_idx < PROGRAM_DATA_SIZE then
        Except.ok { m with
          program := { m.program with
            data := Function.update m.program.data m.program.data_idx
              (char_to_uint8
                (if int_to_char char_signed (getchar m.stdin).1 = EOF then 0
                  else int_to_char char_signed (getchar m.stdin).1)) },
          stdin := (getchar m.stdin).2 }
      else Except.error Fault.data_access_out_of_bounds := by
  by_cases h : m.program.data_idx < PROGRAM_DATA_SIZE
  · simp [execute_switch, write_cell, h, CMD_IN, CMD_OUT, CMD_DEC, CMD_INC, CMD_RIGHT, CMD_LEFT]
  · simp [execute_switch, write_cell, h, CMD_IN, CMD_OUT, CMD_DEC, CMD_INC, CMD_RIGHT, CMD_LEFT]

theorem execute_switch_open (char_signed : Bool) (m : Machine) :
    execute_switch char_signed CMD_OPEN m =
      if m.program.data_idx < PROGRAM_DATA_SIZE then
        (if m.program.data m.program.data_idx = 0 then
          scan_loop_end m.program.src_file_content.size m 1
        else Except.ok m)
      else Except.error Fault.data_access_out_of_bounds := by
  by_cases h : m.program.data_idx < PROGRAM_DATA_SIZE
  · simp [execute_switch, read_cell, h, CMD_OPEN, CMD_IN, CMD_OUT, CMD_DEC, CMD_INC, CMD_RIGHT,
      CMD_LEFT]
  · simp [execute_switch, read_cell, h, CMD_OPEN, CMD_IN, CMD_OUT, CMD_DEC, CMD_INC, CMD_RIGHT,
      CMD_LEFT]

theorem execute_switch_close (char_signed : Bool) (m : Machine) :
    execute_switch char_signed CMD_CLOSE m =
      if m.program.data_idx < PROGRAM_DATA_SIZE then
        (if m.program.data m.program.data_idx ≠ 0 then
          scan_loop_start m.program.src_file_content.size m 1
        else Except.ok m)
      else Except.error Fault.data_access_out_of_bounds := by
  by_cases h : m.program.data_idx < PROGRAM_DATA_SIZE
  · simp [execute_switch, read_cell, h, CMD_CLOSE, CMD_OPEN, CMD_IN, CMD_OUT, CMD_DEC, CMD_INC,
      CMD_RIGHT, CMD_LEFT]
  · simp [execute_switch, read_cell, h, CMD_CLOSE, CMD_OPEN, CMD_IN, CMD_OUT, CMD_DEC, CMD_INC,
      CMD_RIGHT, CMD_LEFT]

theorem execute_switch_default (char_signed : Bool) (command : Nat) (m : Machine)
    (h1 : command ≠ CMD_RIGHT) (h2 : command ≠ CMD_LEFT) (h3 : command ≠ CMD_INC)
    (h4 : command ≠ CMD_DEC) (h5 : command ≠ CMD_OUT) (h6 : command ≠ CMD_IN)
    (h7 : command ≠ CMD_OPEN) (h8 : command ≠ CMD_CLOSE) :
    execute_switch char_signed command m = Except.ok m := by
  unfold execute_switch
  rw [if_neg h1, if_neg h2, if_neg h3, if_neg h4, if_neg h5, if_neg h6, if_neg h7, if_neg h8]

theorem execute_switch_frame (char_signed : Bool) (command : Nat) (m m1 : Machine)
    (h : execute_switch char_signed command m = Except.ok m1)
    (hlt : m.program.instruction_idx < m.program.src_file_content.size) :
    m1.program.src_file_content = m.program.src_file_content ∧
      m1.program.instruction_idx ≤ m.program.src_file_content.size ∧
      (m.stdin = [] → m1.stdin = []) := by
  have hle := Nat.le_of_lt hlt
  by_cases h1 : command = CMD_RIGHT
  · subst h1
    rw [execute_switch_right] at h
    simp only [Except.ok.injEq] at h
    subst h
    exact ⟨rfl, hle, fun hs => hs⟩
  by_cases h2 : command = CMD_LEFT
  · subst h2
    rw [execute_switch_left] at h
    simp only [Except.ok.injEq] at h
    subst h
    exact ⟨rfl, hle, fun hs => hs⟩
  by_cases h3 : command = CMD_INC
  · subst h3
    rw [execute_switch_inc] at h
    split at h
    · simp only [Except.ok.injEq] at h
      subst h
      exact ⟨rfl, hle, fun hs => hs⟩
    · cases h
  by_cases h4 : command = CMD_DEC
  · subst h4
    rw [execute_switch_dec] at h
    split at h
    · simp only [Except.ok.injEq] at h
      subst h
      exact ⟨rfl, hle, fun hs => hs⟩
    · cases h
  by_cases h5 : command = CMD_OUT
  · subst h5
    rw [execute_switch_out] at h
    split at h
    · simp only [Except.ok.injEq] at h
      subst h
      exact ⟨rfl, hle, fun hs => hs⟩
    · cases h
  by_cases h6 : command = CMD_IN
  · subst h6
    rw [execute_switch_in] at h
    split at h
    · simp only [Except.ok.injEq] at h
      subst h
      refine ⟨rfl, hle, fun hs => ?_⟩
      simp only [hs, getchar]
    · cases h
  by_cases h7 : command = CMD_OPEN
  · subst h7
    rw [execute_switch_open] at h
    split at h
    · split at h
      · obtain ⟨e1, _, _, e4, _, e6⟩ := scan_loop_end_frame _ _ _ _ h hlt
        exact ⟨e1, e6, fun hs => e4.trans hs⟩
      · simp only [Except.ok.injEq] at h
        subst h
        exact ⟨rfl, hle, fun hs => hs⟩
    · cases h
  by_cases h8 : command = CMD_CLOSE
  · subst h8
    rw [execute_switch_close] at h
    split at h
    · split at h
      · obtain ⟨e1, _, _, e4, _, _, e7⟩ := scan_loop_start_frame _ _ _ _ h hlt
        exact ⟨e1, Nat.le_of_lt e7, fun hs => e4.trans hs⟩
      · simp only [Except.ok.injEq] at h
        subst h
        exact ⟨rfl, hle, fun hs => hs⟩
    · cases h
  rw [execute_switch_default char_signed command m h1 h2 h3 h4 h5 h6 h7 h8] at h
  simp only [Except.ok.injEq] at h
  subst h
  exact ⟨rfl, hle, fun hs => hs⟩

theorem parse_and_execute_command_ok_cases (char_signed : Bool) (m m2 : Machine)
    (st : ProgramState)
    (h : parse_and_execute_command char_signed m = Except.ok (st, m2)) :
    ∃ command m1, get_current_command m.program = Except.ok command ∧
      execute_switch char_signed command m = Except.ok m1 ∧
      m2 = m1.with_instruction_idx ((m1.program.instruction_idx + 1) % UINT64_RANGE) ∧
      st = (if has_executed_last_command m2.program then ProgramState.Done
            else ProgramState.Running) := by
  unfold parse_and_execute_command at h
  split at h
  · cases h
  · rename_i command hcmd
    split at h
    · cases h
    · rename_i m1 hsw
      simp only [Except.ok.injEq, Prod.mk.injEq] at h
      obtain ⟨hst, hm⟩ := h
      refine ⟨command, m1, hcmd, hsw, hm.symm, ?_⟩
      rw [← hst, ← hm]

theorem parse_and_execute_command_frame (char_signed : Bool) (m m2 : Machine)
    (st : ProgramState)
    (h : parse_and_execute_command char_signed m = Except.ok (st, m2)) :
    m.program.instruction_idx < m.program.src_file_content.size ∧
      m2.program.src_file_content = m.program.src_file_content ∧
      m2.program.instruction_idx ≤ m.program.src_file_content.size + 1 ∧
      (m.stdin = [] → m2.stdin = []) ∧
      (st = ProgramState.Done ↔
        m2.program.instruction_idx ≥ m2.program.src_file_content.size) := by
  obtain ⟨command, m1, hcmd, hsw, hm, hst⟩ :=
    parse_and_execute_command_ok_cases char_signed m m2 st h
  have hlt := get_current_command_ok_lt _ _ hcmd
  obtain ⟨h1, h2, h3⟩ := execute_switch_frame char_signed command m m1 hsw hlt
  refine ⟨hlt, ?_, ?_, ?_, ?_⟩
  · rw [hm, with_instruction_idx_src]; exact h1
  · rw [hm, with_instruction_idx_instruction_idx]
    exact le_trans (Nat.mod_le _ _) (Nat.succ_le_succ h2)
  · intro hs
    rw [hm, with_instruction_idx_stdin]; exact h3 hs
  · rw [hst]
    unfold has_executed_last_command
    by_cases hge : m2.program.instruction_idx ≥ m2.program.src_file_content.size
    · simp [hge]
    · simp [hge]

/-- The byte stored by `,` for an input byte below 255 is that byte, whether
plain `char` is signed or not. -/
theorem stored_byte_of_input_lt_255 (char_signed : Bool) (b : Nat) (rest : List Nat)
    (hb : b < 255) :
    char_to_uint8
      (if int_to_char char_signed (getchar (b :: rest)).1 = EOF then 0
        else int_to_char char_signed (getchar (b :: rest)).1) = b := by
  have h1 : (getchar (b :: rest)).1 = (b : Int) := by
    simp only [getchar, UINT8_RANGE]
    have : b % 256 = b := Nat.mod_eq_of_lt (by omega)
    rw [this]
  rw [h1]
  cases char_signed
  · simp only [int_to_char, char_to_uint8, EOF, Bool.false_eq_true, if_false]
    split_ifs <;> omega
  · simp only [int_to_char, char_to_uint8, EOF, if_true]
    split_ifs <;> omega

/-- With plain `char` unsigned the test `c == EOF` never holds: at the end of
input the program `,.` stores and outputs 255, whereas the input byte 255 is
stored as such. -/
theorem unsigned_char_end_of_input :
    (∃ m2, execute 2 false (init_machine (source_of_string ",.") []) = Except.ok m2 ∧
      m2.stdout = [255]) ∧
    (∃ m2, execute 2 false (init_machine (source_of_string ",.") [255]) = Except.ok m2 ∧
      m2.stdout = [255]) :=
  ⟨⟨_, rfl, rfl⟩, ⟨_, rfl, rfl⟩⟩

theorem PROGRAM_DATA_SIZE_eq : PROGRAM_DATA_SIZE = 32768 := rfl

/-! ### The scans never exhaust the fuel that the switch gives them -/

theorem scan_loop_end_fuel :
    ∀ (fuel : Nat) (m : Machine) (count : Nat),
      m.program.instruction_idx < m.program.src_file_content.size →
      m.program.src_file_content.size < UINT64_RANGE →
      m.program.src_file_content.size - m.program.instruction_idx ≤ fuel →
      scan_loop_end fuel m count ≠ Except.error Fault.fuel_exhausted := by
  intro fuel
  induction fuel with
  | zero =>
    intro m count hlt _ hfuel
    omega
  | succ fuel ih =>
    intro m count hlt hsize hfuel h
    unfold scan_loop_end at h
    by_cases hc : count = 0
    · simp only [hc, if_true] at h
      cases h
    · simp only [hc, if_false] at h
      split at h
      · cases h
      · rename_i hex
        split at h
        · rename_i e hcmd
          simp only [Except.error.injEq] at h
          subst h
          unfold get_current_command at hcmd
          split at hcmd
          · cases hcmd
          · cases hcmd
        · rename_i command hcmd
          have hlt1 := get_current_command_ok_lt _ _ hcmd
          refine ih _ _ hlt1 ?_ ?_ h
          · rw [with_instruction_idx_src]; exact hsize
          · rw [with_instruction_idx_src, with_instruction_idx_instruction_idx]
            have hmod : (m.program.instruction_idx + 1) % UINT64_RANGE
                = m.program.instruction_idx + 1 := Nat.mod_eq_of_lt (by omega)
            rw [hmod]
            omega

theorem scan_loop_start_fuel :
    ∀ (fuel : Nat) (m : Machine) (count : Nat),
      m.program.instruction_idx < m.program.src_file_content.size →
      m.program.src_file_content.size < UINT64_RANGE →
      m.program.instruction_idx + 1 ≤ fuel →
      scan_loop_start fuel m count ≠ Except.error Fault.fuel_exhausted := by
  intro fuel
  induction fuel with
  | zero =>
    intro m count _ _ hfuel
    omega
  | succ fuel ih =>
    intro m count hlt hsize hfuel h
    unfold scan_loop_start at h
    by_cases hc : count = 0
    · simp only [hc, if_true] at h
      cases h
    · simp only [hc, if_false, Nat.not_lt_zero] at h
      split at h
      · rename_i e hcmd
        simp only [Except.error.injEq] at h
        subst h
        unfold get_current_command at hcmd
        split at hcmd
        · cases hcmd
        · cases hcmd
      · rename_i command hcmd
        have hlt1 := get_current_command_ok_lt _ _ hcmd
        have hlt2 := hlt1
        rw [with_instruction_idx_src, with_instruction_idx_instruction_idx] at hlt2
        have hpos : 0 < m.program.instruction_idx := by
          by_contra h0
          have hz : m.program.instruction_idx = 0 := by omega
          rw [hz] at hlt2
          have hwrap : (UINT64_RANGE - 1 + 0) % UINT64_RANGE = UINT64_RANGE - 1 := by decide
          rw [hwrap] at hlt2
          omega
        refine ih _ _ hlt1 ?_ ?_ h
        · rw [with_instruction_idx_src]; exact hsize
        · rw [with_instruction_idx_instruction_idx]
          have hmod : (UINT64_RANGE - 1 + m.program.instruction_idx) % UINT64_RANGE
              = m.program.instruction_idx - 1 := by
            simp only [UINT64_RANGE] at hsize hlt ⊢; omega
          rw [hmod]
          omega

/-- The fuel of the embedding is never what stops `parse_and_execute_command`:
on a program shorter than `2 ^ 64` bytes the call either returns or hits
undefined behaviour of the C program. -/
theorem parse_and_execute_command_fuel (char_signed : Bool) (m : Machine)
    (hsize : m.program.src_file_content.size < UINT64_RANGE) :
    parse_and_execute_command char_signed m ≠ Except.error Fault.fuel_exhausted := by
  intro h
  unfold parse_and_execute_command at h
  split at h
  · rename_i e hcmd
    simp only [Except.error.injEq] at h
    subst h
    unfold get_current_command at hcmd
    split at hcmd
    · cases hcmd
    · cases hcmd
  · rename_i command hcmd
    have hlt := get_current_command_ok_lt _ _ hcmd
    split at h
    · rename_i e hsw
      simp only [Except.error.injEq] at h
      subst h
      by_cases h1 : command = CMD_RIGHT
      · subst h1; rw [execute_switch_right] at hsw; cases hsw
      by_cases h2 : command = CMD_LEFT
      · subst h2; rw [execute_switch_left] at hsw; cases hsw
      by_cases h3 : command = CMD_INC
      · subst h3; rw [execute_switch_inc] at hsw
        split at hsw
        · cases hsw
        · cases hsw
      by_cases h4 : command = CMD_DEC
      · subst h4; rw [execute_switch_dec] at hsw
        split at hsw
        · cases hsw
        · cases hsw
      by_cases h5 : command = CMD_OUT
      · subst h5; rw [execute_switch_out] at hsw
        split at hsw
        · cases hsw
        · cases hsw
      by_cases h6 : command = CMD_IN
      · subst h6; rw [execute_switch_in] at hsw
        split at hsw
        · cases hsw
        · cases hsw
      by_cases h7 : command = CMD_OPEN
      · subst h7; rw [execute_switch_open] at hsw
        split at hsw
        · split at hsw
          · exact scan_loop_end_fuel _ _ _ hlt hsize (Nat.sub_le _ _) hsw
          · cases hsw
        · cases hsw
      by_cases h8 : command = CMD_CLOSE
      · subst h8; rw [execute_switch_close] at hsw
        split at hsw
        · split at hsw
          · exact scan_loop_start_fuel _ _ _ hlt hsize hlt hsw
          · cases hsw
        · cases hsw
      rw [execute_switch_default char_signed command m h1 h2 h3 h4 h5 h6 h7 h8] at hsw
      cases hsw
    · cases h

/-! ### One call of `parse_and_execute_command`, from the result of the switch -/

theorem get_of_get_current_command_lt (m : Machine) (command : Nat)
    (hcmd : m.program.src_file_content.buffer[m.program.instruction_idx]? = some command) :
    m.program.instruction_idx < m.program.src_file_content.size := by
  by_contra hge
  rw [List.getElem?_eq_none (by simp only [FileContent.size] at hge; omega)] at hcmd
  cases hcmd

theorem parse_and_execute_command_of_switch (char_signed : Bool) (m m1 : Machine)
    (command : Nat)
    (hcmd : m.program.src_file_content.buffer[m.program.instruction_idx]? = some command)
    (hsw : execute_switch char_signed command m = Except.ok m1) :
    parse_and_execute_command char_signed m =
      Except.ok
        (if (m1.program.instruction_idx + 1) % UINT64_RANGE ≥ m1.program.src_file_content.size
          then ProgramState.Done else ProgramState.Running,
         m1.with_instruction_idx ((m1.program.instruction_idx + 1) % UINT64_RANGE)) := by
  simp only [parse_and_execute_command, get_current_command, hcmd, hsw]
  simp [has_executed_last_command]

theorem parse_and_execute_command_of_switch_error (char_signed : Bool) (m : Machine)
    (command : Nat) (e : Fault)
    (hcmd : m.program.src_file_content.buffer[m.program.instruction_idx]? = some command)
    (hsw : execute_switch char_signed command m = Except.error e) :
    parse_and_execute_command char_signed m = Except.error e := by
  simp only [parse_and_execute_command, get_current_command, hcmd, hsw]

/-- A call whose switch leaves the instruction cursor and the program text as
they are advances the cursor by one. -/
theorem parse_and_execute_command_advance (char_signed : Bool) (m m1 : Machine)
    (command : Nat)
    (hsize : m.program.src_file_content.size < UINT64_RANGE)
    (hcmd : m.program.src_file_content.buffer[m.program.instruction_idx]? = some command)
    (hsw : execute_switch char_signed command m = Except.ok m1)
    (hic : m1.program.instruction_idx = m.program.instruction_idx)
    (hsrc : m1.program.src_file_content = m.program.src_file_content) :
    parse_and_execute_command char_signed m =
      Except.ok
        (if m.program.instruction_idx + 1 ≥ m.program.src_file_content.size
          then ProgramState.Done else ProgramState.Running,
         m1.with_instruction_idx (m.program.instruction_idx + 1)) := by
  have hlt := get_of_get_current_command_lt m command hcmd
  have hmod : (m.program.instruction_idx + 1) % UINT64_RANGE = m.program.instruction_idx + 1 :=
    Nat.mod_eq_of_lt (by omega)
  rw [parse_and_execute_command_of_switch char_signed m m1 command hcmd hsw, hic, hsrc, hmod]

/-! ### What the switch may change -/

theorem execute_switch_effect (char_signed : Bool) (command : Nat) (m m1 : Machine)
    (h : execute_switch char_signed command m = Except.ok m1)
    (hlt : m.program.instruction_idx < m.program.src_file_content.size) :
    (∀ i, i ≠ m.program.data_idx → m1.program.data i = m.program.data i) ∧
      (command ≠ CMD_INC → command ≠ CMD_DEC → command ≠ CMD_IN →
        m1.program.data = m.program.data) ∧
      (command ≠ CMD_RIGHT → command ≠ CMD_LEFT →
        m1.program.data_idx = m.program.data_idx) ∧
      (command ≠ CMD_OUT → m1.stdout = m.stdout) ∧
      (command ≠ CMD_IN → m1.stdin = m.stdin) ∧
      (m.program.data_idx < PROGRAM_DATA_SIZE → m1.program.data_idx < PROGRAM_DATA_SIZE) := by
  by_cases h1 : command = CMD_RIGHT
  · subst h1
    rw [execute_switch_right] at h
    simp only [Except.ok.injEq] at h
    subst h
    refine ⟨fun _ _ => rfl, fun _ _ _ => rfl, fun hne => absurd rfl hne, fun _ => rfl,
      fun _ => rfl, fun _ => ?_⟩
    exact Nat.mod_lt _ (by decide)
  by_cases h2 : command = CMD_LEFT
  · subst h2
    rw [execute_switch_left] at h
    simp only [Except.ok.injEq] at h
    subst h
    refine ⟨fun _ _ => rfl, fun _ _ _ => rfl, fun _ hne => absurd rfl hne, fun _ => rfl,
      fun _ => rfl, fun hd => ?_⟩
    show (UINT64_RANGE - 1 + (if m.program.data_idx = 0 then PROGRAM_DATA_SIZE
      else m.program.data_idx)) % UINT64_RANGE < PROGRAM_DATA_SIZE
    rw [PROGRAM_DATA_SIZE_eq] at hd ⊢
    simp only [UINT64_RANGE]
    split_ifs <;> omega
  by_cases h3 : command = CMD_INC
  · subst h3
    rw [execute_switch_inc] at h
    split at h
    · simp only [Except.ok.injEq] at h
      subst h
      exact ⟨fun i hi => Function.update_noteq hi _ _, fun hne => absurd rfl hne,
        fun _ _ => rfl, fun _ => rfl, fun _ => rfl, fun hd => hd⟩
    · cases h
  by_cases h4 : command = CMD_DEC
  · subst h4
    rw [execute_switch_dec] at h
    split at h
    · simp only [Except.ok.injEq] at h
      subst h
      exact ⟨fun i hi => Function.update_noteq hi _ _, fun _ hne => absurd rfl hne,
        fun _ _ => rfl, fun _ => rfl, fun _ => rfl, fun hd => hd⟩
    · cases h
  by_cases h5 : command = CMD_OUT
  · subst h5
    rw [execute_switch_out] at h
    split at h
    · simp only [Except.ok.injEq] at h
      subst h
      exact ⟨fun _ _ => rfl, fun _ _ _ => rfl, fun _ _ => rfl, fun hne => absurd rfl hne,
        fun _ => rfl, fun hd => hd⟩
    · cases h
  by_cases h6 : command = CMD_IN
  · subst h6
    rw [execute_switch_in] at h
    split at h
    · simp only [Except.ok.injEq] at h
      subst h
      exact ⟨fun i hi => Function.update_noteq hi _ _, fun _ _ hne => absurd rfl hne,
        fun _ _ => rfl, fun _ => rfl, fun hne => absurd rfl hne, fun hd => hd⟩
    · cases h
  by_cases h7 : command = CMD_OPEN
  · subst h7
    rw [execute_switch_open] at h
    split at h
    · split at h
      · obtain ⟨_, e2, e3, e4, e5, _⟩ := scan_loop_end_frame _ _ _ _ h hlt
        exact ⟨fun i _ => congrFun e2 i, fun _ _ _ => e2, fun _ _ => e3, fun _ => e5,
          fun _ => e4, fun hd => e3 ▸ hd⟩
      · simp only [Except.ok.injEq] at h
        subst h
        exact ⟨fun _ _ => rfl, fun _ _ _ => rfl, fun _ _ => rfl, fun _ => rfl,
          fun _ => rfl, fun hd => hd⟩
    · cases h
  by_cases h8 : command = CMD_CLOSE
  · subst h8
    rw [execute_switch_close] at h
    split at h
    · split at h
      · obtain ⟨_, e2, e3, e4, e5, _, _⟩ := scan_loop_start_frame _ _ _ _ h hlt
        exact ⟨fun i _ => congrFun e2 i, fun _ _ _ => e2, fun _ _ => e3, fun _ => e5,
          fun _ => e4, fun hd => e3 ▸ hd⟩
      · simp only [Except.ok.injEq] at h
        subst h
        exact ⟨fun _ _ => rfl, fun _ _ _ => rfl, fun _ _ => rfl, fun _ => rfl,
          fun _ => rfl, fun hd => hd⟩
    · cases h
  rw [execute_switch_default char_signed command m h1 h2 h3 h4 h5 h6 h7 h8] at h
  simp only [Except.ok.injEq] at h
  subst h
  exact ⟨fun _ _ => rfl, fun _ _ _ => rfl, fun _ _ => rfl, fun _ => rfl,
    fun _ => rfl, fun hd => hd⟩

/-- What one call of `parse_and_execute_command` may change, by the command it
executes. -/
theorem parse_and_execute_command_effect (char_signed : Bool) (m m2 : Machine)
    (st : ProgramState)
    (h : parse_and_execute_command char_signed m = Except.ok (st, m2)) :
    ∃ command, m.program.src_file_content.buffer[m.program.instruction_idx]? = some command ∧
      m2.program.src_file_content = m.program.src_file_content ∧
      (∀ i, i ≠ m.program.data_idx → m2.program.data i = m.program.data i) ∧
      (command ≠ CMD_INC → command ≠ CMD_DEC → command ≠ CMD_IN →
        m2.program.data = m.program.data) ∧
      (command ≠ CMD_RIGHT → command ≠ CMD_LEFT →
        m2.program.data_idx = m.program.data_idx) ∧
      (command ≠ CMD_OUT → m2.stdout = m.stdout) ∧
      (command ≠ CMD_IN → m2.stdin = m.stdin) ∧
      (m.program.data_idx < PROGRAM_DATA_SIZE → m2.program.data_idx < PROGRAM_DATA_SIZE) := by
  obtain ⟨command, m1, hcmd, hsw, hm, _⟩ :=
    parse_and_execute_command_ok_cases char_signed m m2 st h
  have hlt := get_current_command_ok_lt _ _ hcmd
  obtain ⟨hsrc, _, _⟩ := execute_switch_frame char_signed command m m1 hsw hlt
  obtain ⟨e1, e2, e3, e4, e5, e6⟩ := execute_switch_effect char_signed command m m1 hsw hlt
  refine ⟨command, get_current_command_ok_get _ _ hcmd, ?_, ?_, ?_, ?_, ?_, ?_, ?_⟩
  · rw [hm, with_instruction_idx_src]; exact hsrc
  · intro i hi
    rw [hm, with_instruction_idx_data]; exact e1 i hi
  · intro a b c
    rw [hm, with_instruction_idx_data]; exact e2 a b c
  · intro a b
    rw [hm, with_instruction_idx_data_idx]; exact e3 a b
  · intro a
    rw [hm, with_instruction_idx_stdout]; exact e4 a
  · intro a
    rw [hm, with_instruction_idx_stdin]; exact e5 a
  · intro a
    rw [hm, with_instruction_idx_data_idx]; exact e6 a

/-! ### The steps of the commands that do not jump -/

theorem step_inc (char_signed : Bool) (m : Machine)
    (hsize : m.program.src_file_content.size < UINT64_RANGE)
    (hcmd : m.program.src_file_content.buffer[m.program.instruction_idx]? = some CMD_INC)
    (hidx : m.program.data_idx < PROGRAM_DATA_SIZE) :
    parse_and_execute_command char_signed m =
      Except.ok
        (if m.program.instruction_idx + 1 ≥ m.program.src_file_content.size
          then ProgramState.Done else ProgramState.Running,
         (m.with_cell ((m.program.data m.program.data_idx + 1) % UINT8_RANGE)).with_instruction_idx
           (m.program.instruction_idx + 1)) := by
  have hsw := execute_switch_inc char_signed m
  rw [if_pos hidx] at hsw
  exact parse_and_execute_command_advance char_signed m _ CMD_INC hsize hcmd hsw rfl rfl

theorem step_dec (char_signed : Bool) (m : Machine)
    (hsize : m.program.src_file_content.size < UINT64_RANGE)
    (hcmd : m.program.src_file_content.buffer[m.program.instruction_idx]? = some CMD_DEC)
    (hidx : m.program.data_idx < PROGRAM_DATA_SIZE) :
    parse_and_execute_command char_signed m =
      Except.ok
        (if m.program.instruction_idx + 1 ≥ m.program.src_file_content.size
          then ProgramState.Done else ProgramState.Running,
         (m.with_cell ((UINT8_RANGE - 1 + m.program.data m.program.data_idx)
             % UINT8_RANGE)).with_instruction_idx
           (m.program.instruction_idx + 1)) := by
  have hsw := execute_switch_dec char_signed m
  rw [if_pos hidx] at hsw
  exact parse_and_execute_command_advance char_signed m _ CMD_DEC hsize hcmd hsw rfl rfl

theorem step_out (char_signed : Bool) (m : Machine)
    (hsize : m.program.src_file_content.size < UINT64_RANGE)
    (hcmd : m.program.src_file_content.buffer[m.program.instruction_idx]? = some CMD_OUT)
    (hidx : m.program.data_idx < PROGRAM_DATA_SIZE) :
    parse_and_execute_command char_signed m =
      Except.ok
        (if m.program.instruction_idx + 1 ≥ m.program.src_file_content.size
          then ProgramState.Done else ProgramState.Running,
         Machine.with_instruction_idx
           { m with stdout := m.stdout ++ [m.program.data m.program.data_idx] }
           (m.program.instruction_idx + 1)) := by
  have hsw := execute_switch_out char_signed m
  rw [if_pos hidx] at hsw
  exact parse_and_execute_command_advance char_signed m _ CMD_OUT hsize hcmd hsw rfl rfl

theorem step_open_nonzero (char_signed : Bool) (m : Machine)
    (hsize : m.program.src_file_content.size < UINT64_RANGE)
    (hcmd : m.program.src_file_content.buffer[m.program.instruction_idx]? = some CMD_OPEN)
    (hidx : m.program.data_idx < PROGRAM_DATA_SIZE)
    (hcell : m.program.data m.program.data_idx ≠ 0) :
    parse_and_execute_command char_signed m =
      Except.ok
        (if m.program.instruction_idx + 1 ≥ m.program.src_file_content.size
          then ProgramState.Done else ProgramState.Running,
         m.with_instruction_idx (m.program.instruction_idx + 1)) := by
  have hsw := execute_switch_open char_signed m
  rw [if_pos hidx, if_neg hcell] at hsw
  exact parse_and_execute_command_advance char_signed m _ CMD_OPEN hsize hcmd hsw rfl rfl

theorem step_close_zero (char_signed : Bool) (m : Machine)
    (hsize : m.program.src_file_content.size < UINT64_RANGE)
    (hcmd : m.program.src_file_content.buffer[m.program.instruction_idx]? = some CMD_CLOSE)
    (hidx : m.program.data_idx < PROGRAM_DATA_SIZE)
    (hcell : m.program.data m.program.data_idx = 0) :
    parse_and_execute_command char_signed m =
      Except.ok
        (if m.program.instruction_idx + 1 ≥ m.program.src_file_content.size
          then ProgramState.Done else ProgramState.Running,
         m.with_instruction_idx (m.program.instruction_idx + 1)) := by
  have hsw := execute_switch_close char_signed m
  rw [if_pos hidx, if_neg (not_not.mpr hcell)] at hsw
  exact parse_and_execute_command_advance char_signed m _ CMD_CLOSE hsize hcmd hsw rfl rfl

theorem step_default (char_signed : Bool) (m : Machine) (command : Nat)
    (hsize : m.program.src_file_content.size < UINT64_RANGE)
    (hcmd : m.program.src_file_content.buffer[m.program.instruction_idx]? = some command)
    (h1 : command ≠ CMD_RIGHT) (h2 : command ≠ CMD_LEFT) (h3 : command ≠ CMD_INC)
    (h4 : command ≠ CMD_DEC) (h5 : command ≠ CMD_OUT) (h6 : command ≠ CMD_IN)
    (h7 : command ≠ CMD_OPEN) (h8 : command ≠ CMD_CLOSE) :
    parse_and_execute_command char_signed m =
      Except.ok
        (if m.program.instruction_idx + 1 ≥ m.program.src_file_content.size
          then ProgramState.Done else ProgramState.Running,
         m.with_instruction_idx (m.program.instruction_idx + 1)) :=
  parse_and_execute_command_advance char_signed m _ command hsize hcmd
    (execute_switch_default char_signed command m h1 h2 h3 h4 h5 h6 h7 h8) rfl rfl

/-- The step on `[` with a zero cell and a matching `]` at `j`. -/
theorem step_open_zero (char_signed : Bool) (m : Machine) (j : Nat)
    (hsize : m.program.src_file_content.size < UINT64_RANGE)
    (hcmd : m.program.src_file_content.buffer[m.program.instruction_idx]? = some CMD_OPEN)
    (hidx : m.program.data_idx < PROGRAM_DATA_SIZE)
    (hcell : m.program.data m.program.data_idx = 0)
    (hmatch : is_matching_close m.program.src_file_content.buffer m.program.instruction_idx j) :
    parse_and_execute_command char_signed m =
      Except.ok
        (if j + 1 ≥ m.program.src_file_content.size then ProgramState.Done
          else ProgramState.Running,
         m.with_instruction_idx (j + 1)) := by
  obtain ⟨hij, hjlen, hzero, hmin⟩ := hmatch
  have hscan := scan_loop_end_finds m m.program.instruction_idx j hsize hjlen hzero hmin
    (j - m.program.instruction_idx) m.program.instruction_idx m.program.src_file_content.size 1
    (by omega) (le_refl _) (by simp [forward_counter])
    (by simp only [FileContent.size]; omega)
  have hself : m.with_instruction_idx m.program.instruction_idx = m := rfl
  rw [hself] at hscan
  have hsw := execute_switch_open char_signed m
  rw [if_pos hidx, if_pos hcell, hscan] at hsw
  have hmod : (j + 1) % UINT64_RANGE = j + 1 := by
    apply Nat.mod_eq_of_lt
    simp only [FileContent.size] at hsize
    omega
  rw [parse_and_execute_command_of_switch char_signed m _ CMD_OPEN hcmd hsw,
    with_instruction_idx_instruction_idx, with_instruction_idx_src, hmod,
    with_instruction_idx_twice]

/-- The step on `]` with a nonzero cell and a matching `[` at `j`. -/
theorem step_close_nonzero (char_signed : Bool) (m : Machine) (j : Nat)
    (hsize : m.program.src_file_content.size < UINT64_RANGE)
    (hcmd : m.program.src_file_content.buffer[m.program.instruction_idx]? = some CMD_CLOSE)
    (hidx : m.program.data_idx < PROGRAM_DATA_SIZE)
    (hcell : m.program.data m.program.data_idx ≠ 0)
    (hmatch : is_matching_open m.program.src_file_content.buffer m.program.instruction_idx j) :
    parse_and_execute_command char_signed m =
      Except.ok (ProgramState.Running, m.with_instruction_idx (j + 1)) := by
  obtain ⟨hji, hzero, hmin⟩ := hmatch
  have hilen := get_of_get_current_command_lt m CMD_CLOSE hcmd
  have hscan := scan_loop_start_finds m m.program.instruction_idx j hsize hilen hzero hmin
    (m.program.instruction_idx - j) m.program.instruction_idx m.program.src_file_content.size 1
    (by omega) (le_refl _) (by simp [backward_counter])
    (by omega)
  have hself : m.with_instruction_idx m.program.instruction_idx = m := rfl
  rw [hself] at hscan
  have hsw := execute_switch_close char_signed m
  rw [if_pos hidx, if_pos hcell, hscan] at hsw
  have hmod : (j + 1) % UINT64_RANGE = j + 1 := by
    apply Nat.mod_eq_of_lt
    omega
  have hrun : ¬ (j + 1 ≥ m.program.src_file_content.size) := by omega
  rw [parse_and_execute_command_of_switch char_signed m _ CMD_CLOSE hcmd hsw,
    with_instruction_idx_instruction_idx, with_instruction_idx_src, hmod,
    with_instruction_idx_twice, if_neg hrun]

/-! ### The faults of a step -/

theorem get_current_command_error (p : Program) (e : Fault)
    (h : get_current_command p = Except.error e) :
    e = Fault.program_read_out_of_bounds := by
  unfold get_current_command at h
  split at h
  · cases h
  · simp only [Except.error.injEq] at h
    exact h.symm

theorem scan_loop_end_error :
    ∀ (fuel : Nat) (m : Machine) (count : Nat) (e : Fault),
      scan_loop_end fuel m count = Except.error e →
      e ≠ Fault.data_access_out_of_bounds := by
  intro fuel
  induction fuel with
  | zero =>
    intro m count e h
    unfold scan_loop_end at h
    by_cases hc : count = 0
    · simp only [hc, if_true] at h
      cases h
    · simp only [hc, if_false, Except.error.injEq] at h
      subst h
      decide
  | succ fuel ih =>
    intro m count e h
    unfold scan_loop_end at h
    by_cases hc : count = 0
    · simp only [hc, if_true] at h
      cases h
    · simp only [hc, if_false] at h
      split at h
      · cases h
      · split at h
        · rename_i e1 hcmd
          simp only [Except.error.injEq] at h
          subst h
          rw [get_current_command_error _ _ hcmd]
          decide
        · exact ih _ _ _ h

theorem scan_loop_start_error :
    ∀ (fuel : Nat) (m : Machine) (count : Nat) (e : Fault),
      scan_loop_start fuel m count = Except.error e →
      e ≠ Fault.data_access_out_of_bounds := by
  intro fuel
  induction fuel with
  | zero =>
    intro m count e h
    unfold scan_loop_start at h
    by_cases hc : count = 0
    · simp only [hc, if_true] at h
      cases h
    · simp only [hc, if_false, Except.error.injEq] at h
      subst h
      decide
  | succ fuel ih =>
    intro m count e h
    unfold scan_loop_start at h
    by_cases hc : count = 0
    · simp only [hc, if_true] at h
      cases h
    · simp only [hc, if_false, Nat.not_lt_zero] at h
      split at h
      · rename_i e1 hcmd
        simp only [Except.error.injEq] at h
        subst h
        rw [get_current_command_error _ _ hcmd]
        decide
      · exact ih _ _ _ h

/-- With the data cursor inside the tape, no call of
`parse_and_execute_command` accesses the tape out of bounds. -/
theorem parse_and_execute_command_data_in_bounds (char_signed : Bool) (m : Machine)
    (hd : m.program.data_idx < PROGRAM_DATA_SIZE) :
    parse_and_execute_command char_signed m ≠ Except.error Fault.data_access_out_of_bounds := by
  intro h
  unfold parse_and_execute_command at h
  split at h
  · rename_i e hcmd
    simp only [Except.error.injEq] at h
    subst h
    have := get_current_command_error _ _ hcmd
    cases this
  · rename_i command hcmd
    split at h
    · rename_i e hsw
      simp only [Except.error.injEq] at h
      subst h
      by_cases h1 : command = CMD_RIGHT
      · subst h1; rw [execute_switch_right] at hsw; cases hsw
      by_cases h2 : command = CMD_LEFT
      · subst h2; rw [execute_switch_left] at hsw; cases hsw
      by_cases h3 : command = CMD_INC
      · subst h3; rw [execute_switch_inc, if_pos hd] at hsw; cases hsw
      by_cases h4 : command = CMD_DEC
      · subst h4; rw [execute_switch_dec, if_pos hd] at hsw; cases hsw
      by_cases h5 : command = CMD_OUT
      · subst h5; rw [execute_switch_out, if_pos hd] at hsw; cases hsw
      by_cases h6 : command = CMD_IN
      · subst h6; rw [execute_switch_in, if_pos hd] at hsw; cases hsw
      by_cases h7 : command = CMD_OPEN
      · subst h7; rw [execute_switch_open, if_pos hd] at hsw
        split at hsw
        · exact scan_loop_end_error _ _ _ _ hsw rfl
        · cases hsw
      by_cases h8 : command = CMD_CLOSE
      · subst h8; rw [execute_switch_close, if_pos hd] at hsw
        split at hsw
        · exact scan_loop_start_error _ _ _ _ hsw rfl
        · cases hsw
      rw [execute_switch_default char_signed command m h1 h2 h3 h4 h5 h6 h7 h8] at hsw
      cases hsw
    · cases h

/-- The data cursor of every state of the loop of `execute` is inside the
tape. -/
theorem reachable_data_idx_lt (char_signed : Bool) (src : FileContent) (input : List Nat)
    (st : ProgramState) (m : Machine)
    (hr : Reachable char_signed (init_machine src input) st m) :
    m.program.data_idx < PROGRAM_DATA_SIZE := by
  induction hr with
  | start =>
    show (0 : Nat) < PROGRAM_DATA_SIZE
    decide
  | step m m1 st _ hstep ih =>
    obtain ⟨_, _, _, _, _, _, _, _, h⟩ := parse_and_execute_command_effect char_signed m m1 st hstep
    exact h ih

/-! ### Cells and repeated commands -/

theorem with_cell_data_same (m : Machine) (v : Nat) :
    (m.with_cell v).program.data m.program.data_idx = v := by
  simp only [Machine.with_cell, Function.update_same]

theorem with_cell_twice (m : Machine) (v w : Nat) :
    (m.with_cell v).with_cell w = m.with_cell w := by
  simp only [Machine.with_cell, Function.update_idem]

theorem with_cell_self (m : Machine) :
    m.with_cell (m.program.data m.program.data_idx) = m := by
  simp only [Machine.with_cell, Function.update_eq_self]

theorem with_instruction_idx_with_cell (m : Machine) (k v : Nat) :
    (m.with_instruction_idx k).with_cell v = (m.with_cell v).with_instruction_idx k := rfl

theorem execute_steps_one (char_signed : Bool) (m : Machine) :
    execute_steps 1 char_signed m = parse_and_execute_command char_signed m := by
  unfold execute_steps
  cases h : parse_and_execute_command char_signed m with
  | error e => rfl
  | ok r =>
    obtain ⟨st, m1⟩ := r
    cases st
    · rfl
    · simp only [execute_steps]

theorem execute_steps_succ_of_running (char_signed : Bool) (m m1 : Machine) (n : Nat)
    (h : parse_and_execute_command char_signed m = Except.ok (ProgramState.Running, m1)) :
    execute_steps (n + 1) char_signed m = execute_steps n char_signed m1 := by
  simp only [execute_steps, h]

theorem execute_succ_of_running (char_signed : Bool) (m m1 : Machine) (n : Nat)
    (h : parse_and_execute_command char_signed m = Except.ok (ProgramState.Running, m1)) :
    execute (n + 1) char_signed m = execute n char_signed m1 := by
  simp only [execute, h]

/-- Repeated `+`: `n + 1` consecutive `+` add `n + 1` to the current cell modulo
256. -/
theorem execute_steps_inc (char_signed : Bool) :
    ∀ (n : Nat) (m : Machine),
      m.program.src_file_content.size < UINT64_RANGE →
      m.program.data_idx < PROGRAM_DATA_SIZE →
      (∀ k, k ≤ n →
        m.program.src_file_content.buffer[m.program.instruction_idx + k]? = some CMD_INC) →
      execute_steps (n + 1) char_signed m =
        Except.ok
          (if m.program.instruction_idx + (n + 1) ≥ m.program.src_file_content.size
            then ProgramState.Done else ProgramState.Running,
           (m.with_cell ((m.program.data m.program.data_idx + (n + 1))
              % UINT8_RANGE)).with_instruction_idx (m.program.instruction_idx + (n + 1))) := by
  intro n
  induction n with
  | zero =>
    intro m hsize hidx hcmds
    rw [execute_steps_one]
    exact step_inc char_signed m hsize (hcmds 0 (le_refl _)) hidx
  | succ n ih =>
    intro m hsize hidx hcmds
    have hstep := step_inc char_signed m hsize (hcmds 0 (Nat.zero_le _)) hidx
    have hnext := get_of_get_current_command_lt
      (m.with_instruction_idx (m.program.instruction_idx + 1)) CMD_INC
      (hcmds 1 (by omega))
    rw [with_instruction_idx_instruction_idx, with_instruction_idx_src] at hnext
    rw [if_neg (by omega)] at hstep
    rw [execute_steps_succ_of_running char_signed m _ (n + 1) hstep]
    have hih := ih ((m.with_cell ((m.program.data m.program.data_idx + 1)
        % UINT8_RANGE)).with_instruction_idx (m.program.instruction_idx + 1))
      hsize hidx (by
        intro k hk
        have := hcmds (k + 1) (by omega)
        rw [with_instruction_idx_instruction_idx, with_instruction_idx_src]
        rw [show m.program.instruction_idx + 1 + k = m.program.instruction_idx + (k + 1) by omega]
        exact this)
    rw [hih]
    have hcellv : ((m.with_cell ((m.program.data m.program.data_idx + 1)
        % UINT8_RANGE)).with_instruction_idx (m.program.instruction_idx + 1)).program.data
          ((m.with_cell ((m.program.data m.program.data_idx + 1)
        % UINT8_RANGE)).with_instruction_idx (m.program.instruction_idx + 1)).program.data_idx
        = (m.program.data m.program.data_idx + 1) % UINT8_RANGE :=
      with_cell_data_same m _
    rw [hcellv, with_instruction_idx_instruction_idx, with_instruction_idx_src,
      with_instruction_idx_with_cell, with_cell_twice, with_instruction_idx_twice]
    have harith : ((m.program.data m.program.data_idx + 1) % UINT8_RANGE + (n + 1)) % UINT8_RANGE
        = (m.program.data m.program.data_idx + (n + 1 + 1)) % UINT8_RANGE := by
      simp only [UINT8_RANGE]; omega
    have hic : m.program.instruction_idx + 1 + (n + 1) = m.program.instruction_idx + (n + 1 + 1) := by
      omega
    rw [harith, hic]
    rfl

/-- Repeated `-`: `n + 1` consecutive `-` subtract `n + 1` from the current cell
modulo 256. -/
theorem execute_steps_dec (char_signed : Bool) :
    ∀ (n : Nat) (m : Machine),
      m.program.src_file_content.size < UINT64_RANGE →
      m.program.data_idx < PROGRAM_DATA_SIZE →
      (∀ k, k ≤ n →
        m.program.src_file_content.buffer[m.program.instruction_idx + k]? = some CMD_DEC) →
      execute_steps (n + 1) char_signed m =
        Except.ok
          (if m.program.instruction_idx + (n + 1) ≥ m.program.src_file_content.size
            then ProgramState.Done else ProgramState.Running,
           (m.with_cell ((m.program.data m.program.data_idx + 255 * (n + 1))
              % UINT8_RANGE)).with_instruction_idx (m.program.instruction_idx + (n + 1))) := by
  intro n
  induction n with
  | zero =>
    intro m hsize hidx hcmds
    rw [execute_steps_one, step_dec char_signed m hsize (hcmds 0 (le_refl _)) hidx]
    have harith : (UINT8_RANGE - 1 + m.program.data m.program.data_idx) % UINT8_RANGE
        = (m.program.data m.program.data_idx + 255 * (0 + 1)) % UINT8_RANGE := by
      simp only [UINT8_RANGE]; omega
    rw [harith]
  | succ n ih =>
    intro m hsize hidx hcmds
    have hstep := step_dec char_signed m hsize (hcmds 0 (Nat.zero_le _)) hidx
    have hnext := get_of_get_current_command_lt
      (m.with_instruction_idx (m.program.instruction_idx + 1)) CMD_DEC
      (hcmds 1 (by omega))
    rw [with_instruction_idx_instruction_idx, with_instruction_idx_src] at hnext
    rw [if_neg (by omega)] at hstep
    rw [execute_steps_succ_of_running char_signed m _ (n + 1) hstep]
    have hih := ih ((m.with_cell ((UINT8_RANGE - 1 + m.program.data m.program.data_idx)
        % UINT8_RANGE)).with_instruction_idx (m.program.instruction_idx + 1))
      hsize hidx (by
        intro k hk
        have := hcmds (k + 1) (by omega)
        rw [with_instruction_idx_instruction_idx, with_instruction_idx_src]
        rw [show m.program.instruction_idx + 1 + k = m.program.instruction_idx + (k + 1) by omega]
        exact this)
    rw [hih]
    have hcellv : ((m.with_cell ((UINT8_RANGE - 1 + m.program.data m.program.data_idx)
        % UINT8_RANGE)).with_instruction_idx (m.program.instruction_idx + 1)).program.data
          ((m.with_cell ((UINT8_RANGE - 1 + m.program.data m.program.data_idx)
        % UINT8_RANGE)).with_instruction_idx (m.program.instruction_idx + 1)).program.data_idx
        = (UINT8_RANGE - 1 + m.program.data m.program.data_idx) % UINT8_RANGE :=
      with_cell_data_same m _
    rw [hcellv, with_instruction_idx_instruction_idx, with_instruction_idx_src,
      with_instruction_idx_with_cell, with_cell_twice, with_instruction_idx_twice]
    have harith : ((UINT8_RANGE - 1 + m.program.data m.program.data_idx) % UINT8_RANGE
          + 255 * (n + 1)) % UINT8_RANGE
        = (m.program.data m.program.data_idx + 255 * (n + 1 + 1)) % UINT8_RANGE := by
      simp only [UINT8_RANGE]; omega
    have hic : m.program.instruction_idx + 1 + (n + 1) = m.program.instruction_idx + (n + 1 + 1) := by
      omega
    rw [harith, hic]
    rfl

/-! ### Steps from a machine given by its current cell and instruction cursor -/

theorem with_cell_idx_data_same (m : Machine) (c k : Nat) :
    ((m.with_cell c).with_instruction_idx k).program.data
      ((m.with_cell c).with_instruction_idx k).program.data_idx = c :=
  with_cell_data_same m c

theorem nf_step_dec (char_signed : Bool) (m : Machine) (c k : Nat)
    (hsize : m.program.src_file_content.size < UINT64_RANGE)
    (hcmd : m.program.src_file_content.buffer[k]? = some CMD_DEC)
    (hidx : m.program.data_idx < PROGRAM_DATA_SIZE) :
    parse_and_execute_command char_signed ((m.with_cell c).with_instruction_idx k) =
      Except.ok
        (if k + 1 ≥ m.program.src_file_content.size
          then ProgramState.Done else ProgramState.Running,
         (m.with_cell ((UINT8_RANGE - 1 + c) % UINT8_RANGE)).with_instruction_idx (k + 1)) := by
  have h := step_dec char_signed ((m.with_cell c).with_instruction_idx k) hsize hcmd hidx
  rw [with_cell_idx_data_same, with_instruction_idx_with_cell, with_cell_twice,
    with_instruction_idx_twice] at h
  exact h

theorem nf_step_open_nonzero (char_signed : Bool) (m : Machine) (c k : Nat)
    (hsize : m.program.src_file_content.size < UINT64_RANGE)
    (hcmd : m.program.src_file_content.buffer[k]? = some CMD_OPEN)
    (hidx : m.program.data_idx < PROGRAM_DATA_SIZE)
    (hc : c ≠ 0) :
    parse_and_execute_command char_signed ((m.with_cell c).with_instruction_idx k) =
      Except.ok
        (if k + 1 ≥ m.program.src_file_content.size
          then ProgramState.Done else ProgramState.Running,
         (m.with_cell c).with_instruction_idx (k + 1)) := by
  have h := step_open_nonzero char_signed ((m.with_cell c).with_instruction_idx k) hsize hcmd
    hidx (by rw [with_cell_idx_data_same]; exact hc)
  rw [with_instruction_idx_twice] at h
  exact h

theorem nf_step_close_zero (char_signed : Bool) (m : Machine) (k : Nat)
    (hsize : m.program.src_file_content.size < UINT64_RANGE)
    (hcmd : m.program.src_file_content.buffer[k]? = some CMD_CLOSE)
    (hidx : m.program.data_idx < PROGRAM_DATA_SIZE) :
    parse_and_execute_command char_signed ((m.with_cell 0).with_instruction_idx k) =
      Except.ok
        (if k + 1 ≥ m.program.src_file_content.size
          then ProgramState.Done else ProgramState.Running,
         (m.with_cell 0).with_instruction_idx (k + 1)) := by
  have h := step_close_zero char_signed ((m.with_cell 0).with_instruction_idx k) hsize hcmd
    hidx (with_cell_idx_data_same m 0 k)
  rw [with_instruction_idx_twice] at h
  exact h

theorem nf_step_close_nonzero (char_signed : Bool) (m : Machine) (c k j : Nat)
    (hsize : m.program.src_file_content.size < UINT64_RANGE)
    (hcmd : m.program.src_file_content.buffer[k]? = some CMD_CLOSE)
    (hidx : m.program.data_idx < PROGRAM_DATA_SIZE)
    (hc : c ≠ 0)
    (hmatch : is_matching_open m.program.src_file_content.buffer k j) :
    parse_and_execute_command char_signed ((m.with_cell c).with_instruction_idx k) =
      Except.ok (ProgramState.Running, (m.with_cell c).with_instruction_idx (j + 1)) := by
  have h := step_close_nonzero char_signed ((m.with_cell c).with_instruction_idx k) j hsize hcmd
    hidx (by rw [with_cell_idx_data_same]; exact hc) hmatch
  rw [with_instruction_idx_twice] at h
  exact h

/-! ### The program `[[-]]` -/

theorem nested_clear_matching_close :
    is_matching_close [CMD_OPEN, CMD_OPEN, CMD_DEC, CMD_CLOSE, CMD_CLOSE] 0 4 := by
  refine ⟨by decide, by decide, by decide, fun k h1 h2 => ?_⟩
  have hk : k = 1 ∨ k = 2 ∨ k = 3 := by omega
  rcases hk with rfl | rfl | rfl <;> decide

theorem nested_clear_inner_matching_open :
    is_matching_open [CMD_OPEN, CMD_OPEN, CMD_DEC, CMD_CLOSE, CMD_CLOSE] 3 1 := by
  refine ⟨by decide, by decide, fun k h1 h2 => ?_⟩
  have hk : k = 2 := by omega
  subst hk
  decide

/-- The inner loop of `[[-]]`, entered at the `-` with the current cell equal to
`c + 1`: after `2 * c + 3` calls the run is over, with the cell cleared. -/
theorem nested_clear_inner_loop (char_signed : Bool) (m : Machine)
    (hsrc : m.program.src_file_content.buffer
      = [CMD_OPEN, CMD_OPEN, CMD_DEC, CMD_CLOSE, CMD_CLOSE])
    (hidx : m.program.data_idx < PROGRAM_DATA_SIZE) :
    ∀ (c fuel : Nat), c + 1 < 256 → 2 * c + 3 ≤ fuel →
      execute fuel char_signed ((m.with_cell (c + 1)).with_instruction_idx 2) =
        Except.ok ((m.with_cell 0).with_instruction_idx 5) := by
  have hsize5 : m.program.src_file_content.size = 5 := by
    simp only [FileContent.size, hsrc]; rfl
  have hsize : m.program.src_file_content.size < UINT64_RANGE := by
    rw [hsize5]; decide
  have h2 : m.program.src_file_content.buffer[2]? = some CMD_DEC := by rw [hsrc]; rfl
  have h3 : m.program.src_file_content.buffer[3]? = some CMD_CLOSE := by rw [hsrc]; rfl
  have h4 : m.program.src_file_content.buffer[4]? = some CMD_CLOSE := by rw [hsrc]; rfl
  intro c
  induction c with
  | zero =>
    intro fuel _ hfuel
    obtain ⟨fuel, rfl⟩ : ∃ f, fuel = f + 3 := ⟨fuel - 3, by omega⟩
    have s1 := nf_step_dec char_signed m (0 + 1) 2 hsize h2 hidx
    rw [hsize5, if_neg (by decide),
      show (UINT8_RANGE - 1 + (0 + 1)) % UINT8_RANGE = 0 by decide] at s1
    have s2 := nf_step_close_zero char_signed m (2 + 1) hsize h3 hidx
    rw [hsize5, if_neg (by decide)] at s2
    have s3 := nf_step_close_zero char_signed m (2 + 1 + 1) hsize h4 hidx
    rw [hsize5, if_pos (by decide)] at s3
    rw [execute_succ_of_running char_signed _ _ _ s1,
      execute_succ_of_running char_signed _ _ _ s2,
      execute_of_done char_signed _ _ _ s3]
  | succ c ih =>
    intro fuel hc hfuel
    obtain ⟨fuel, rfl⟩ : ∃ f, fuel = f + 2 := ⟨fuel - 2, by omega⟩
    have s1 := nf_step_dec char_signed m (c + 1 + 1) 2 hsize h2 hidx
    rw [hsize5, if_neg (by decide),
      show (UINT8_RANGE - 1 + (c + 1 + 1)) % UINT8_RANGE = c + 1 by
        simp only [UINT8_RANGE]; omega] at s1
    have s2 := nf_step_close_nonzero char_signed m (c + 1) (2 + 1) 1 hsize h3 hidx
      (Nat.succ_ne_zero c) (by rw [hsrc]; exact nested_clear_inner_matching_open)
    rw [execute_succ_of_running char_signed _ _ _ s1,
      execute_succ_of_running char_signed _ _ _ s2]
    exact ih fuel (by omega) (by omega)

/-! ### Programs without brackets -/

/-- On a byte that is no bracket the switch returns, with the instruction
cursor and the program text as they were. -/
theorem execute_switch_no_bracket (char_signed : Bool) (command : Nat) (m : Machine)
    (hidx : m.program.data_idx < PROGRAM_DATA_SIZE)
    (h7 : command ≠ CMD_OPEN) (h8 : command ≠ CMD_CLOSE) :
    ∃ m1, execute_switch char_signed command m = Except.ok m1 ∧
      m1.program.instruction_idx = m.program.instruction_idx ∧
      m1.program.src_file_content = m.program.src_file_content ∧
      m1.stderr = m.stderr := by
  by_cases h1 : command = CMD_RIGHT
  · subst h1
    exact ⟨_, execute_switch_right char_signed m, rfl, rfl, rfl⟩
  by_cases h2 : command = CMD_LEFT
  · subst h2
    exact ⟨_, execute_switch_left char_signed m, rfl, rfl, rfl⟩
  by_cases h3 : command = CMD_INC
  · subst h3
    have h := execute_switch_inc char_signed m
    rw [if_pos hidx] at h
    exact ⟨_, h, rfl, rfl, rfl⟩
  by_cases h4 : command = CMD_DEC
  · subst h4
    have h := execute_switch_dec char_signed m
    rw [if_pos hidx] at h
    exact ⟨_, h, rfl, rfl, rfl⟩
  by_cases h5 : command = CMD_OUT
  · subst h5
    have h := execute_switch_out char_signed m
    rw [if_pos hidx] at h
    exact ⟨_, h, rfl, rfl, rfl⟩
  by_cases h6 : command = CMD_IN
  · subst h6
    have h := execute_switch_in char_signed m
    rw [if_pos hidx] at h
    exact ⟨_, h, rfl, rfl, rfl⟩
  exact ⟨m, execute_switch_default char_signed command m h1 h2 h3 h4 h5 h6 h7 h8, rfl, rfl, rfl⟩

/-- One step of a program without brackets. -/
theorem step_no_bracket (char_signed : Bool) (m : Machine)
    (hsize : m.program.src_file_content.size < UINT64_RANGE)
    (hfree : ∀ c ∈ m.program.src_file_content.buffer, c ≠ CMD_OPEN ∧ c ≠ CMD_CLOSE)
    (hlt : m.program.instruction_idx < m.program.src_file_content.size)
    (hidx : m.program.data_idx < PROGRAM_DATA_SIZE) :
    ∃ m1, parse_and_execute_command char_signed m =
        Except.ok
          (if m.program.instruction_idx + 1 ≥ m.program.src_file_content.size
            then ProgramState.Done else ProgramState.Running, m1) ∧
      m1.program.instruction_idx = m.program.instruction_idx + 1 ∧
      m1.program.src_file_content = m.program.src_file_content ∧
      m1.program.data_idx < PROGRAM_DATA_SIZE ∧
      m1.stderr = m.stderr := by
  have hlen : m.program.instruction_idx < m.program.src_file_content.buffer.length := hlt
  have hcmd : m.program.src_file_content.buffer[m.program.instruction_idx]?
      = some (m.program.src_file_content.buffer[m.program.instruction_idx]) :=
    List.getElem?_eq_getElem hlen
  obtain ⟨h7, h8⟩ := hfree _ (List.getElem_mem hlen)
  obtain ⟨m1, hsw, hic, hsrc, herr⟩ := execute_switch_no_bracket char_signed _ m hidx h7 h8
  obtain ⟨_, _, _, _, _, hd⟩ := execute_switch_effect char_signed _ m m1 hsw hlt
  refine ⟨m1.with_instruction_idx (m.program.instruction_idx + 1),
    parse_and_execute_command_advance char_signed m m1 _ hsize hcmd hsw hic hsrc,
    rfl, hsrc, hd hidx, herr⟩

theorem execute_no_bracket (char_signed : Bool) :
    ∀ (d : Nat) (m : Machine),
      m.program.src_file_content.size < UINT64_RANGE →
      (∀ c ∈ m.program.src_file_content.buffer, c ≠ CMD_OPEN ∧ c ≠ CMD_CLOSE) →
      m.program.instruction_idx + (d + 1) = m.program.src_file_content.size →
      m.program.data_idx < PROGRAM_DATA_SIZE →
      ∃ m2, m2.program.instruction_idx = m.program.src_file_content.size ∧
        m2.stderr = m.stderr ∧
        (∀ fuel, d + 1 ≤ fuel → execute fuel char_signed m = Except.ok m2) ∧
        (∀ fuel, fuel < d + 1 →
          execute fuel char_signed m = Except.error Fault.fuel_exhausted) := by
  intro d
  induction d with
  | zero =>
    intro m hsize hfree hd hidx
    obtain ⟨m1, hstep, hic, _, _, herr⟩ :=
      step_no_bracket char_signed m hsize hfree (by omega) hidx
    rw [if_pos (by omega)] at hstep
    refine ⟨m1, by omega, herr, ?_, ?_⟩
    · intro fuel hfuel
      obtain ⟨fuel, rfl⟩ : ∃ f, fuel = f + 1 := ⟨fuel - 1, by omega⟩
      exact execute_of_done char_signed m m1 fuel hstep
    · intro fuel hfuel
      have : fuel = 0 := by omega
      subst this
      rfl
  | succ d ih =>
    intro m hsize hfree hd hidx
    obtain ⟨m1, hstep, hic, hsrc, hidx1, herr⟩ :=
      step_no_bracket char_signed m hsize hfree (by omega) hidx
    rw [if_neg (by omega)] at hstep
    obtain ⟨m2, h1, herr2, h2, h3⟩ := ih m1 (by rw [hsrc]; exact hsize)
      (by rw [hsrc]; exact hfree) (by rw [hsrc, hic]; omega) hidx1
    refine ⟨m2, by rw [h1, hsrc], by rw [herr2, herr], ?_, ?_⟩
    · intro fuel hfuel
      obtain ⟨fuel, rfl⟩ : ∃ f, fuel = f + 1 := ⟨fuel - 1, by omega⟩
      rw [execute_succ_of_running char_signed m m1 fuel hstep]
      exact h2 fuel (by omega)
    · intro fuel hfuel
      rcases Nat.eq_zero_or_pos fuel with h0 | hpos
      · subst h0
        rfl
      · obtain ⟨fuel, rfl⟩ : ∃ f, fuel = f + 1 := ⟨fuel - 1, by omega⟩
        rw [execute_succ_of_running char_signed m m1 fuel hstep]
        exact h3 fuel (by omega)

theorem execute_steps_no_bracket (char_signed : Bool) :
    ∀ (k : Nat) (m : Machine),
      m.program.src_file_content.size < UINT64_RANGE →
      (∀ c ∈ m.program.src_file_content.buffer, c ≠ CMD_OPEN ∧ c ≠ CMD_CLOSE) →
      m.program.instruction_idx + k < m.program.src_file_content.size →
      m.program.data_idx < PROGRAM_DATA_SIZE →
      ∃ m2, execute_steps k char_signed m = Except.ok (ProgramState.Running, m2) ∧
        m2.program.instruction_idx = m.program.instruction_idx + k ∧
        m2.program.src_file_content = m.program.src_file_content := by
  intro k
  induction k with
  | zero =>
    intro m _ _ _ _
    exact ⟨m, rfl, rfl, rfl⟩
  | succ k ih =>
    intro m hsize hfree hk hidx
    obtain ⟨m1, hstep, hic, hsrc, hidx1, _⟩ :=
      step_no_bracket char_signed m hsize hfree (by omega) hidx
    rw [if_neg (by omega)] at hstep
    obtain ⟨m2, h1, h2, h3⟩ := ih m1 (by rw [hsrc]; exact hsize)
      (by rw [hsrc]; exact hfree) (by rw [hsrc, hic]; omega) hidx1
    refine ⟨m2, ?_, by rw [h2, hic]; omega, by rw [h3, hsrc]⟩
    rw [execute_steps_succ_of_running char_signed m m1 k hstep]
    exact h1

/-! ### Balanced programs -/

theorem nesting_delta_bounds (c : Nat) : -1 ≤ nesting_delta c ∧ nesting_delta c ≤ 1 := by
  unfold nesting_delta
  split_ifs <;> constructor <;> decide

theorem first_zero_of_counter (f : Nat → Int) (N : Nat) (h0 : f 0 = 1)
    (hstep : ∀ n, f n - 1 ≤ f (n + 1)) (hN : f N ≤ 0) :
    ∃ n, 1 ≤ n ∧ n ≤ N ∧ f n = 0 ∧ ∀ k, k < n → f k ≠ 0 := by
  have hex : ∃ n, f n ≤ 0 := ⟨N, hN⟩
  have hn : f (Nat.find hex) ≤ 0 := Nat.find_spec hex
  have hmin : ∀ k, k < Nat.find hex → ¬ f k ≤ 0 := fun k hk => Nat.find_min hex hk
  have hle : Nat.find hex ≤ N := Nat.find_min' hex hN
  have hpos : 1 ≤ Nat.find hex := by
    by_contra hlt
    have hz : Nat.find hex = 0 := by omega
    rw [hz, h0] at hn
    omega
  refine ⟨Nat.find hex, hpos, hle, ?_, ?_⟩
  · obtain ⟨p, hp⟩ : ∃ p, Nat.find hex = p + 1 := ⟨Nat.find hex - 1, by omega⟩
    have h1 := hmin p (by omega)
    have h2 := hstep p
    rw [hp] at hn ⊢
    omega
  · intro k hk hfk
    exact hmin k hk (by omega)

theorem forward_counter_eq_depth (buffer : List Nat) (i n : Nat) :
    forward_counter buffer i n =
      1 + depth_before buffer (i + 1 + n) - depth_before buffer (i + 1) := by
  induction n with
  | zero => simp [forward_counter]
  | succ n ih =>
    have hidx : i + 1 + (n + 1) = (i + 1 + n) + 1 := by omega
    have hidx2 : i + n + 1 = i + 1 + n := by omega
    rw [forward_counter, hidx, depth_before, ih, hidx2]
    omega

theorem backward_counter_eq_depth (buffer : List Nat) (i n : Nat) (hn : n ≤ i) :
    backward_counter buffer i n =
      1 - (depth_before buffer i - depth_before buffer (i - n)) := by
  induction n with
  | zero => simp [backward_counter]
  | succ n ih =>
    have hidx : i - n = (i - (n + 1)) + 1 := by omega
    rw [backward_counter, ih (by omega), hidx, depth_before]
    omega

/-- In a balanced program every `[` has a matching `]`. -/
theorem balanced_has_matching_close (buffer : List Nat) (i : Nat)
    (hbal : is_balanced buffer)
    (hopen : buffer[i]? = some CMD_OPEN) :
    ∃ j, is_matching_close buffer i j := by
  have hlen : i < buffer.length := by
    by_contra hge
    rw [List.getElem?_eq_none (by omega)] at hopen
    cases hopen
  have hget : buffer.getD i 0 = CMD_OPEN := by
    rw [List.getD_eq_getElem?_getD, hopen]; rfl
  have hd1 : depth_before buffer (i + 1) = depth_before buffer i + 1 := by
    rw [depth_before, hget]; rfl
  have hdi := hbal.1 i (by omega)
  have hend := hbal.2
  obtain ⟨n, hn1, hnN, hzero, hmin⟩ := first_zero_of_counter
    (forward_counter buffer i) (buffer.length - 1 - i) rfl
    (by
      intro n
      have := (nesting_delta_bounds (buffer.getD (i + n + 1) 0)).1
      rw [forward_counter]
      omega)
    (by
      rw [forward_counter_eq_depth]
      have hidx : i + 1 + (buffer.length - 1 - i) = buffer.length := by omega
      rw [hidx, hend, hd1]
      omega)
  refine ⟨i + n, by omega, by omega, ?_, ?_⟩
  · rw [show i + n - i = n by omega]; exact hzero
  · intro k h1 h2
    exact hmin (k - i) (by omega)

/-- In a balanced program every `]` has a matching `[`. -/
theorem balanced_has_matching_open (buffer : List Nat) (i : Nat)
    (hbal : is_balanced buffer)
    (hclose : buffer[i]? = some CMD_CLOSE) :
    ∃ j, is_matching_open buffer i j := by
  have hlen : i < buffer.length := by
    by_contra hge
    rw [List.getElem?_eq_none (by omega)] at hclose
    cases hclose
  have hget : buffer.getD i 0 = CMD_CLOSE := by
    rw [List.getD_eq_getElem?_getD, hclose]; rfl
  have hd1 : depth_before buffer (i + 1) = depth_before buffer i - 1 := by
    rw [depth_before, hget]; rfl
  have hdi := hbal.1 (i + 1) (by omega)
  obtain ⟨n, hn1, hnN, hzero, hmin⟩ := first_zero_of_counter
    (backward_counter buffer i) i rfl
    (by
      intro n
      have := (nesting_delta_bounds (buffer.getD (i - (n + 1)) 0)).2
      rw [backward_counter]
      omega)
    (by
      rw [backward_counter_eq_depth buffer i i (le_refl _), Nat.sub_self]
      have h0 : depth_before buffer 0 = 0 := rfl
      rw [h0]
      omega)
  refine ⟨i - n, by omega, ?_, ?_⟩
  · rw [show i - (i - n) = n by omega]; exact hzero
  · intro k h1 h2
    exact hmin (i - k) (by omega)

/-- One step on a byte that is no bracket. -/
theorem step_not_bracket (char_signed : Bool) (m : Machine) (command : Nat)
    (hsize : m.program.src_file_content.size < UINT64_RANGE)
    (hcmd : m.program.src_file_content.buffer[m.program.instruction_idx]? = some command)
    (h7 : command ≠ CMD_OPEN) (h8 : command ≠ CMD_CLOSE)
    (hidx : m.program.data_idx < PROGRAM_DATA_SIZE) :
    ∃ m1, parse_and_execute_command char_signed m =
        Except.ok
          (if m.program.instruction_idx + 1 ≥ m.program.src_file_content.size
            then ProgramState.Done else ProgramState.Running, m1) ∧
      m1.program.instruction_idx = m.program.instruction_idx + 1 ∧
      m1.program.src_file_content = m.program.src_file_content ∧
      m1.program.data_idx < PROGRAM_DATA_SIZE ∧
      m1.stderr = m.stderr := by
  have hlt := get_of_get_current_command_lt m command hcmd
  obtain ⟨m1, hsw, hic, hsrc, herr⟩ := execute_switch_no_bracket char_signed _ m hidx h7 h8
  obtain ⟨_, _, _, _, _, hd⟩ := execute_switch_effect char_signed _ m m1 hsw hlt
  exact ⟨m1.with_instruction_idx (m.program.instruction_idx + 1),
    parse_and_execute_command_advance char_signed m m1 _ hsize hcmd hsw hic hsrc,
    rfl, hsrc, hd hidx, herr⟩

/-- One step of a balanced program: the call returns, reports no error and
leaves the instruction cursor at most at the length. -/
theorem step_balanced (char_signed : Bool) (m : Machine)
    (hsize : m.program.src_file_content.size < UINT64_RANGE)
    (hbal : is_balanced m.program.src_file_content.buffer)
    (hlt : m.program.instruction_idx < m.program.src_file_content.size)
    (hidx : m.program.data_idx < PROGRAM_DATA_SIZE) :
    ∃ m1, parse_and_execute_command char_signed m =
        Except.ok
          (if m1.program.instruction_idx ≥ m.program.src_file_content.size
            then ProgramState.Done else ProgramState.Running, m1) ∧
      m1.program.instruction_idx ≤ m.program.src_file_content.size ∧
      m1.program.src_file_content = m.program.src_file_content ∧
      m1.program.data_idx < PROGRAM_DATA_SIZE ∧
      m1.stderr = m.stderr := by
  have hlen : m.program.instruction_idx < m.program.src_file_content.buffer.length := hlt
  have hcmd : m.program.src_file_content.buffer[m.program.instruction_idx]?
      = some (m.program.src_file_content.buffer[m.program.instruction_idx]) :=
    List.getElem?_eq_getElem hlen
  by_cases h7 : m.program.src_file_content.buffer[m.program.instruction_idx] = CMD_OPEN
  · rw [h7] at hcmd
    by_cases hcell : m.program.data m.program.data_idx = 0
    · obtain ⟨j, hj⟩ := balanced_has_matching_close _ _ hbal hcmd
      have hjlt : j < m.program.src_file_content.size := hj.2.1
      exact ⟨m.with_instruction_idx (j + 1),
        step_open_zero char_signed m j hsize hcmd hidx hcell hj,
        hjlt, rfl, hidx, rfl⟩
    · exact ⟨m.with_instruction_idx (m.program.instruction_idx + 1),
        step_open_nonzero char_signed m hsize hcmd hidx hcell,
        hlt, rfl, hidx, rfl⟩
  by_cases h8 : m.program.src_file_content.buffer[m.program.instruction_idx] = CMD_CLOSE
  · rw [h8] at hcmd
    by_cases hcell : m.program.data m.program.data_idx = 0
    · exact ⟨m.with_instruction_idx (m.program.instruction_idx + 1),
        step_close_zero char_signed m hsize hcmd hidx hcell,
        hlt, rfl, hidx, rfl⟩
    · obtain ⟨j, hj⟩ := balanced_has_matching_open _ _ hbal hcmd
      have hjlt : j < m.program.instruction_idx := hj.1
      have hstep := step_close_nonzero char_signed m j hsize hcmd hidx hcell hj
      refine ⟨m.with_instruction_idx (j + 1), ?_, ?_, rfl, hidx, rfl⟩
      · rw [hstep, with_instruction_idx_instruction_idx, if_neg (by omega)]
      · rw [with_instruction_idx_instruction_idx]; omega
  obtain ⟨m1, hstep, hic, hsrc, hd, herr⟩ :=
    step_not_bracket char_signed m _ hsize hcmd h7 h8 hidx
  refine ⟨m1, ?_, by omega, hsrc, hd, herr⟩
  rw [hstep, hic]

/-- The invariant of the loop of `execute` on a balanced program. -/
theorem reachable_balanced (char_signed : Bool) (src : FileContent) (input : List Nat)
    (hpos : 0 < src.size)
    (hsize : src.size < UINT64_RANGE)
    (hbal : is_balanced src.buffer)
    (st : ProgramState) (m : Machine)
    (hr : Reachable char_signed (init_machine src input) st m) :
    m.program.src_file_content = src ∧
      m.program.data_idx < PROGRAM_DATA_SIZE ∧
      m.stderr = [] ∧
      (st = ProgramState.Running → m.program.instruction_idx < src.size) ∧
      (st = ProgramState.Done → m.program.instruction_idx = src.size) := by
  induction hr with
  | start =>
    refine ⟨rfl, ?_, rfl, fun _ => hpos, fun h => ?_⟩
    · show (0 : Nat) < PROGRAM_DATA_SIZE
      decide
    · cases h
  | step m m1 st _ hstep ih =>
    obtain ⟨hsrc, hidx, herr, hrun, _⟩ := ih
    have hlt := hrun rfl
    obtain ⟨m2, hstep2, hle, hsrc2, hidx2, herr2⟩ := step_balanced char_signed m
      (by rw [hsrc]; exact hsize) (by rw [hsrc]; exact hbal) (by rw [hsrc]; exact hlt) hidx
    rw [hstep2] at hstep
    simp only [Except.ok.injEq, Prod.mk.injEq] at hstep
    obtain ⟨hst, hm⟩ := hstep
    subst hm
    rw [hsrc] at hst hle
    refine ⟨by rw [hsrc2, hsrc], hidx2, by rw [herr2, herr], ?_, ?_⟩
    · intro hrunning
      by_contra hge
      rw [if_pos (by omega)] at hst
      rw [hrunning] at hst
      cases hst
    · intro hdone
      by_contra hne
      rw [if_neg (by omega)] at hst
      rw [hdone] at hst
      cases hst

/-! ### Runs that read no input -/

@[simp]
theorem with_stdin_program (m : Machine) (i : List Nat) :
    (m.with_stdin i).program = m.program := rfl

@[simp]
theorem with_stdin_stdout (m : Machine) (i : List Nat) :
    (m.with_stdin i).stdout = m.stdout := rfl

@[simp]
theorem with_stdin_stderr (m : Machine) (i : List Nat) :
    (m.with_stdin i).stderr = m.stderr := rfl

theorem with_stdin_with_instruction_idx (m : Machine) (i : List Nat) (k : Nat) :
    (m.with_stdin i).with_instruction_idx k = (m.with_instruction_idx k).with_stdin i := rfl

theorem scan_loop_end_with_stdin (i : List Nat) :
    ∀ (fuel : Nat) (m : Machine) (count : Nat),
      scan_loop_end fuel (m.with_stdin i) count =
        Except.map (fun m1 => m1.with_stdin i) (scan_loop_end fuel m count) := by
  intro fuel
  induction fuel with
  | zero =>
    intro m count
    unfold scan_loop_end
    by_cases hc : count = 0
    · simp only [hc, if_true]; rfl
    · simp only [hc, if_false]; rfl
  | succ fuel ih =>
    intro m count
    unfold scan_loop_end
    by_cases hc : count = 0
    · simp only [hc, if_true]; rfl
    · simp only [hc, if_false, with_stdin_program, with_instruction_idx_program]
      split
      · rfl
      · cases hcmd : get_current_command
          { m.program with
            instruction_idx := (m.program.instruction_idx + 1) % UINT64_RANGE } with
        | error e => rfl
        | ok command =>
          simp only []
          rw [with_stdin_with_instruction_idx]
          exact ih _ _

theorem scan_loop_start_with_stdin (i : List Nat) :
    ∀ (fuel : Nat) (m : Machine) (count : Nat),
      scan_loop_start fuel (m.with_stdin i) count =
        Except.map (fun m1 => m1.with_stdin i) (scan_loop_start fuel m count) := by
  intro fuel
  induction fuel with
  | zero =>
    intro m count
    unfold scan_loop_start
    by_cases hc : count = 0
    · simp only [hc, if_true]; rfl
    · simp only [hc, if_false]; rfl
  | succ fuel ih =>
    intro m count
    unfold scan_loop_start
    by_cases hc : count = 0
    · simp only [hc, if_true]; rfl
    · simp only [hc, if_false, with_stdin_program, with_instruction_idx_program,
        Nat.not_lt_zero]
      cases hcmd : get_current_command
          { m.program with
            instruction_idx := (UINT64_RANGE - 1 + m.program.instruction_idx)
              % UINT64_RANGE } with
      | error e => rfl
      | ok command =>
        simp only []
        rw [with_stdin_with_instruction_idx]
        exact ih _ _

theorem execute_switch_with_stdin (cs1 cs2 : Bool) (command : Nat) (m : Machine)
    (i : List Nat) (h6 : command ≠ CMD_IN) :
    execute_switch cs1 command (m.with_stdin i) =
      Except.map (fun m1 => m1.with_stdin i) (execute_switch cs2 command m) := by
  by_cases h1 : command = CMD_RIGHT
  · subst h1
    rw [execute_switch_right, execute_switch_right]; rfl
  by_cases h2 : command = CMD_LEFT
  · subst h2
    rw [execute_switch_left, execute_switch_left]; rfl
  by_cases h3 : command = CMD_INC
  · subst h3
    rw [execute_switch_inc, execute_switch_inc, with_stdin_program]
    split <;> rfl
  by_cases h4 : command = CMD_DEC
  · subst h4
    rw [execute_switch_dec, execute_switch_dec, with_stdin_program]
    split <;> rfl
  by_cases h5 : command = CMD_OUT
  · subst h5
    rw [execute_switch_out, execute_switch_out, with_stdin_program]
    split <;> rfl
  by_cases h7 : command = CMD_OPEN
  · subst h7
    rw [execute_switch_open, execute_switch_open, with_stdin_program]
    split
    · split
      · exact scan_loop_end_with_stdin i _ m 1
      · rfl
    · rfl
  by_cases h8 : command = CMD_CLOSE
  · subst h8
    rw [execute_switch_close, execute_switch_close, with_stdin_program]
    split
    · split
      · exact scan_loop_start_with_stdin i _ m 1
      · rfl
    · rfl
  rw [execute_switch_default cs1 command _ h1 h2 h3 h4 h5 h6 h7 h8,
    execute_switch_default cs2 command _ h1 h2 h3 h4 h5 h6 h7 h8]
  rfl

theorem parse_and_execute_command_with_stdin (cs1 cs2 : Bool) (m : Machine) (i : List Nat)
    (hne : m.program.src_file_content.buffer[m.program.instruction_idx]? ≠ some CMD_IN) :
    parse_and_execute_command cs1 (m.with_stdin i) =
      Except.map (fun r => (r.1, r.2.with_stdin i)) (parse_and_execute_command cs2 m) := by
  unfold parse_and_execute_command
  rw [with_stdin_program]
  cases hcmd : get_current_command m.program with
  | error e => rfl
  | ok command =>
    have hc : command ≠ CMD_IN := by
      intro hc
      rw [get_current_command_ok_get _ _ hcmd, hc] at hne
      exact hne rfl
    simp only []
    rw [execute_switch_with_stdin cs1 cs2 command m i hc]
    cases hsw : execute_switch cs2 command m with
    | error e => rfl
    | ok m1 => rfl

theorem execute_with_stdin (cs1 cs2 : Bool) (i : List Nat) :
    ∀ (fuel : Nat) (m : Machine),
      (∀ c ∈ m.program.src_file_content.buffer, c ≠ CMD_IN) →
      execute fuel cs1 (m.with_stdin i) =
        Except.map (fun m1 => m1.with_stdin i) (execute fuel cs2 m) := by
  intro fuel
  induction fuel with
  | zero =>
    intro m _
    rfl
  | succ fuel ih =>
    intro m hfree
    have hne : m.program.src_file_content.buffer[m.program.instruction_idx]? ≠ some CMD_IN := by
      intro h
      have hlt := get_of_get_current_command_lt m CMD_IN h
      have hmem := List.getElem_mem (l := m.program.src_file_content.buffer) hlt
      rw [List.getElem?_eq_getElem hlt] at h
      simp only [Option.some.injEq] at h
      rw [h] at hmem
      exact hfree _ hmem rfl
    unfold execute
    rw [parse_and_execute_command_with_stdin cs1 cs2 m i hne]
    cases hstep : parse_and_execute_command cs2 m with
    | error e => rfl
    | ok r =>
      obtain ⟨st, m1⟩ := r
      cases st
      · rfl
      · have hsrc := (parse_and_execute_command_frame cs2 m m1 _ hstep).2.1
        exact ih m1 (by rw [hsrc]; exact hfree)

theorem execute_fuel_mono (char_signed : Bool) :
    ∀ (fuel : Nat) (m m1 : Machine) (k : Nat),
      execute fuel char_signed m = Except.ok m1 →
      execute (fuel + k) char_signed m = Except.ok m1 := by
  intro fuel
  induction fuel with
  | zero =>
    intro m m1 k h
    cases h
  | succ fuel ih =>
    intro m m1 k h
    rw [show fuel + 1 + k = (fuel + k) + 1 by omega]
    unfold execute at h ⊢
    cases hstep : parse_and_execute_command char_signed m with
    | error e =>
      rw [hstep] at h
      cases h
    | ok r =>
      obtain ⟨st, m2⟩ := r
      rw [hstep] at h
      cases st
      · exact h
      · exact ih m2 m1 k h

theorem execute_steps_of_execute (char_signed : Bool) :
    ∀ (fuel : Nat) (m m1 : Machine),
      execute fuel char_signed m = Except.ok m1 →
      execute_steps fuel char_signed m = Except.ok (ProgramState.Done, m1) := by
  intro fuel
  induction fuel with
  | zero =>
    intro m m1 h
    cases h
  | succ fuel ih =>
    intro m m1 h
    unfold execute at h
    unfold execute_steps
    cases hstep : parse_and_execute_command char_signed m with
    | error e =>
      rw [hstep] at h
      cases h
    | ok r =>
      obtain ⟨st, m2⟩ := r
      rw [hstep] at h
      cases st
      · simp only [Except.ok.injEq] at h
        rw [h]
      · exact ih m2 m1 h

theorem run_ends_with_true (r : Except Fault Machine) (cursor : Nat) (output : List Nat)
    (h : run_ends_with r cursor output = true) :
    ∃ m, r = Except.ok m ∧ m.program.instruction_idx = cursor ∧ m.stdout = output ∧
      m.stderr = [] := by
  cases r with
  | error e => cases h
  | ok m =>
    simp only [run_ends_with, decide_eq_true_eq] at h
    exact ⟨m, rfl, h⟩

/-- The run of the Hello fragment on the empty input, evaluated. -/
theorem hello_fragment_run :
    run_ends_with (execute 870 true (init_machine hello_fragment [])) 70
      [72, 101, 108, 108, 111] = true := by
  decide!

/-! # The claims -/

/-! ## Forward loop search -/

/-- C1: when the instruction cursor points at `[`, the current cell is 0 and
`j` is the position of the matching `]` (the least position after the cursor at
which a counter started at 1, incremented on `[` and decremented on `]`,
reaches 0), one call of `parse_and_execute_command` returns the machine with
the instruction cursor set to `j + 1` and nothing else changed: the tape, the
data cursor, the output, the unread input and the error stream are the same. -/
theorem forward_scan_lands_after_matching_close (char_signed : Bool) (m : Machine) (j : Nat)
    (hsize : m.program.src_file_content.size < UINT64_RANGE)
    (hcmd : m.program.src_file_content.buffer[m.program.instruction_idx]? = some CMD_OPEN)
    (hidx : m.program.data_idx < PROGRAM_DATA_SIZE)
    (hcell : m.program.data m.program.data_idx = 0)
    (hmatch : is_matching_close m.program.src_file_content.buffer m.program.instruction_idx j) :
    parse_and_execute_command char_signed m =
      Except.ok
        (if j + 1 ≥ m.program.src_file_content.size then ProgramState.Done
          else ProgramState.Running,
         m.with_instruction_idx (j + 1)) := by
  obtain ⟨hij, hjlen, hzero, hmin⟩ := hmatch
  have hscan := scan_loop_end_finds m m.program.instruction_idx j hsize hjlen hzero hmin
    (j - m.program.instruction_idx) m.program.instruction_idx m.program.src_file_content.size 1
    (by omega) (le_refl _) (by simp [forward_counter])
    (by simp only [FileContent.size]; omega)
  have hself : m.with_instruction_idx m.program.instruction_idx = m := rfl
  rw [hself] at hscan
  have hmod : (j + 1) % UINT64_RANGE = j + 1 := by
    apply Nat.mod_eq_of_lt
    simp only [FileContent.size] at hsize
    omega
  simp only [parse_and_execute_command, get_current_command, hcmd, execute_switch, read_cell,
    hidx, if_true, hcell, hscan, with_instruction_idx_program, with_instruction_idx_twice, hmod,
    has_executed_last_command]
  simp [CMD_OPEN, CMD_RIGHT, CMD_LEFT, CMD_INC, CMD_DEC, CMD_OUT, CMD_IN, hmod]

/-- Witness of C1: on `[[-]]+` with a zero cell the outer `[` at position 0 is
matched with the `]` at position 4 and the cursor goes to 5. -/
theorem forward_scan_lands_after_matching_close_witness :
    parse_and_execute_command true (init_machine (source_of_string "[[-]]+") []) =
      Except.ok
        (if 4 + 1 ≥ (init_machine (source_of_string "[[-]]+") []).program.src_file_content.size
          then ProgramState.Done else ProgramState.Running,
         (init_machine (source_of_string "[[-]]+") []).with_instruction_idx (4 + 1)) :=
  forward_scan_lands_after_matching_close true (init_machine (source_of_string "[[-]]+") []) 4
    (by decide) (by decide) (by decide) (by decide)
    ⟨by decide, by decide, by decide, fun k h1 h2 => by
      have hk : k = 1 ∨ k = 2 ∨ k = 3 := by
        simp only [init_machine, init_program] at h1 h2; omega
      rcases hk with rfl | rfl | rfl <;> decide⟩

/-! ## Backward loop search -/

/-- C2: when the instruction cursor points at `]`, the current cell is nonzero
and `j` is the position of the matching `[` (the greatest position before the
cursor at which a counter started at 1, incremented on `]` and decremented on
`[`, reaches 0), one call of `parse_and_execute_command` reports `Running` and
returns the machine with the instruction cursor set to `j + 1` and nothing else
changed: the tape, the data cursor, the output, the unread input and the error
stream are the same. -/
theorem backward_scan_lands_after_matching_open (char_signed : Bool) (m : Machine) (j : Nat)
    (hsize : m.program.src_file_content.size < UINT64_RANGE)
    (hcmd : m.program.src_file_content.buffer[m.program.instruction_idx]? = some CMD_CLOSE)
    (hidx : m.program.data_idx < PROGRAM_DATA_SIZE)
    (hcell : m.program.data m.program.data_idx ≠ 0)
    (hmatch : is_matching_open m.program.src_file_content.buffer m.program.instruction_idx j) :
    parse_and_execute_command char_signed m =
      Except.ok (ProgramState.Running, m.with_instruction_idx (j + 1)) := by
  obtain ⟨hji, hzero, hmin⟩ := hmatch
  have hilen : m.program.instruction_idx < m.program.src_file_content.buffer.length := by
    by_contra h
    rw [List.getElem?_eq_none (by omega)] at hcmd
    exact absurd hcmd (by simp)
  have hscan := scan_loop_start_finds m m.program.instruction_idx j hsize hilen hzero hmin
    (m.program.instruction_idx - j) m.program.instruction_idx m.program.src_file_content.size 1
    (by omega) (le_refl _) (by simp [backward_counter])
    (by simp only [FileContent.size]; omega)
  have hself : m.with_instruction_idx m.program.instruction_idx = m := rfl
  rw [hself] at hscan
  have hmod : (j + 1) % UINT64_RANGE = j + 1 := by
    apply Nat.mod_eq_of_lt
    simp only [FileContent.size] at hsize
    omega
  have hrun : ¬ m.program.src_file_content.size ≤ j + 1 := by
    simp only [FileContent.size]; omega
  simp only [parse_and_execute_command, get_current_command, hcmd, execute_switch, read_cell,
    hidx, if_true, hcell, hscan, with_instruction_idx_program, with_instruction_idx_twice, hmod,
    has_executed_last_command]
  simp [CMD_CLOSE, CMD_OPEN, CMD_RIGHT, CMD_LEFT, CMD_INC, CMD_DEC, CMD_OUT, CMD_IN, hmod, hrun,
    hcell]

/-- Witness of C2: on `[[-]]` with the current cell equal to 3 and the cursor on
the outer `]` at position 4, the match is the `[` at position 0 and not the
inner one at position 1; the cursor goes to 1. -/
theorem backward_scan_lands_after_matching_open_witness :
    parse_and_execute_command true
        { program := { instruction_idx := 4, data_idx := 0,
                       src_file_content := source_of_string "[[-]]", data := fun _ => 3 },
          stdin := [], stdout := [], stderr := [] } =
      Except.ok (ProgramState.Running,
        Machine.with_instruction_idx
          { program := { instruction_idx := 4, data_idx := 0,
                         src_file_content := source_of_string "[[-]]", data := fun _ => 3 },
            stdin := [], stdout := [], stderr := [] } (0 + 1)) :=
  backward_scan_lands_after_matching_open true _ 0
    (by decide) (by decide) (by decide) (by decide)
    ⟨by decide, by decide, fun k h1 h2 => by
      have hk : k = 1 ∨ k = 2 ∨ k = 3 := by
        simp only at h1 h2; omega
      rcases hk with rfl | rfl | rfl <;> decide⟩

/-! ## Unmatched brackets and the empty program -/

/-- C3 (failing input): on the program `+]` run from the initial state the
second step scans backward past position 0; the cursor wraps to `2 ^ 64 - 1`,
the test of source line 129 does not fire, and the next `get_current_command`
reads outside the program buffer.  The run does not halt with the diagnostic
"Could not find loop start". -/
theorem unmatched_close_reads_outside_program (char_signed : Bool) (fuel : Nat) :
    execute (fuel + 2) char_signed (init_machine (source_of_string "+]") []) =
      Except.error Fault.program_read_out_of_bounds := by
  cases char_signed <;> rfl

/-- C4 (failing input): on the empty program `execute` calls
`parse_and_execute_command` before any test of the length, and that call reads
the byte at position 0 of an empty buffer. -/
theorem empty_program_reads_outside_program (char_signed : Bool) (fuel : Nat)
    (input : List Nat) :
    execute (fuel + 1) char_signed (init_machine { buffer := [] } input) =
      Except.error Fault.program_read_out_of_bounds := by
  rfl

/-- C5: when the instruction cursor points at `[`, the current cell is 0 and the
nesting counter reaches 0 at no later position of the program, one call of
`parse_and_execute_command` returns: it appends the diagnostic "Could not find
loop end" to the error stream, reports `Done`, leaves the instruction cursor at
`size + 1` and changes nothing else (output, tape and data cursor are the
same); `execute` therefore halts after this call. -/
theorem unmatched_open_reports_and_halts (char_signed : Bool) (m : Machine)
    (hsize : m.program.src_file_content.size + 1 < UINT64_RANGE)
    (hcmd : m.program.src_file_content.buffer[m.program.instruction_idx]? = some CMD_OPEN)
    (hidx : m.program.data_idx < PROGRAM_DATA_SIZE)
    (hcell : m.program.data m.program.data_idx = 0)
    (hopen : ∀ k, m.program.instruction_idx < k → k < m.program.src_file_content.size →
      forward_counter m.program.src_file_content.buffer m.program.instruction_idx
        (k - m.program.instruction_idx) ≠ 0) :
    parse_and_execute_command char_signed m =
        Except.ok (ProgramState.Done,
          Machine.with_instruction_idx { m with stderr := m.stderr ++ [MSG_LOOP_END] }
            (m.program.src_file_content.size + 1)) ∧
      ∀ fuel, execute (fuel + 1) char_signed m =
        Except.ok (Machine.with_instruction_idx { m with stderr := m.stderr ++ [MSG_LOOP_END] }
          (m.program.src_file_content.size + 1)) := by
  have hilen : m.program.instruction_idx < m.program.src_file_content.buffer.length := by
    by_contra h
    rw [List.getElem?_eq_none (by omega)] at hcmd
    exact absurd hcmd (by simp)
  have hscan := scan_loop_end_unmatched m m.program.instruction_idx (by omega) hopen
    (m.program.src_file_content.size - m.program.instruction_idx - 1) m.program.instruction_idx
    m.program.src_file_content.size 1
    (by simp only [FileContent.size]; omega) (le_refl _) (by simp [forward_counter])
    (by simp only [FileContent.size]; omega)
  have hself : m.with_instruction_idx m.program.instruction_idx = m := rfl
  rw [hself] at hscan
  have hmod : (m.program.src_file_content.size + 1) % UINT64_RANGE
      = m.program.src_file_content.size + 1 := Nat.mod_eq_of_lt hsize
  have hstep : parse_and_execute_command char_signed m =
      Except.ok (ProgramState.Done,
        Machine.with_instruction_idx { m with stderr := m.stderr ++ [MSG_LOOP_END] }
          (m.program.src_file_content.size + 1)) := by
    simp only [parse_and_execute_command, get_current_command, hcmd, execute_switch, read_cell,
      hidx, if_true, hcell, hscan, with_instruction_idx_program, with_instruction_idx_twice,
      hmod, has_executed_last_command]
    simp [CMD_OPEN, CMD_RIGHT, CMD_LEFT, CMD_INC, CMD_DEC, CMD_OUT, CMD_IN, hmod]
  exact ⟨hstep, fun fuel => execute_of_done char_signed m _ fuel hstep⟩

/-- Witness of C5: the program `[` run from the initial state. -/
theorem unmatched_open_reports_and_halts_witness :
    parse_and_execute_command true (init_machine (source_of_string "[") []) =
        Except.ok (ProgramState.Done,
          Machine.with_instruction_idx
            { init_machine (source_of_string "[") [] with
              stderr := (init_machine (source_of_string "[") []).stderr ++ [MSG_LOOP_END] }
            ((init_machine (source_of_string "[") []).program.src_file_content.size + 1)) ∧
      ∀ fuel, execute (fuel + 1) true (init_machine (source_of_string "[") []) =
        Except.ok (Machine.with_instruction_idx
          { init_machine (source_of_string "[") [] with
            stderr := (init_machine (source_of_string "[") []).stderr ++ [MSG_LOOP_END] }
          ((init_machine (source_of_string "[") []).program.src_file_content.size + 1)) :=
  unmatched_open_reports_and_halts true (init_machine (source_of_string "[") [])
    (by decide) (by decide) (by decide) (by decide)
    (fun k h1 h2 => by
      exfalso
      have h3 : k < 1 := h2
      have h4 : 0 < k := h1
      omega)

/-! ## Input -/

/-- C6 (failing input): with plain `char` signed, the input byte 255 is
converted to the `char` value -1, which the test `c == EOF` of source line 105
takes for the end of input: the step executing `,` stores 0 and not 255, and
the program `,.` outputs the byte 0. -/
theorem input_byte_255_is_stored_as_zero :
    (∃ st m1, parse_and_execute_command true (init_machine (source_of_string ",.") [255])
        = Except.ok (st, m1) ∧ m1.program.data m1.program.data_idx = 0 ∧ m1.stdin = []) ∧
      (∃ m2, execute 2 true (init_machine (source_of_string ",.") [255]) = Except.ok m2 ∧
        m2.stdout = [0]) :=
  ⟨⟨_, _, rfl, rfl, rfl⟩, ⟨_, rfl, rfl⟩⟩

/-- C7: with plain `char` signed (as on x86-64), a step executing `,` when the
input is exhausted stores 0 in the cell under the data cursor, whatever the
cell held, leaves the input exhausted and changes nothing else but the
instruction cursor; the input stays exhausted after any step, so every later
`,` stores 0 too; and the program `,.` run on the empty input outputs exactly
the one byte 0. -/
theorem end_of_input_reads_as_zero :
    (∀ (m : Machine),
        m.program.src_file_content.buffer[m.program.instruction_idx]? = some CMD_IN →
        m.program.data_idx < PROGRAM_DATA_SIZE →
        m.stdin = [] →
        parse_and_execute_command true m =
          Except.ok
            (if (m.program.instruction_idx + 1) % UINT64_RANGE ≥ m.program.src_file_content.size
              then ProgramState.Done else ProgramState.Running,
             Machine.with_instruction_idx
               { m with
                 program := { m.program with
                   data := Function.update m.program.data m.program.data_idx 0 },
                 stdin := [] }
               ((m.program.instruction_idx + 1) % UINT64_RANGE))) ∧
      (∀ (m m1 : Machine) (st : ProgramState),
        m.stdin = [] → parse_and_execute_command true m = Except.ok (st, m1) → m1.stdin = []) ∧
      (∃ m2, execute 2 true (init_machine (source_of_string ",.") []) = Except.ok m2 ∧
        m2.stdout = [0]) := by
  refine ⟨?_, ?_, ⟨_, rfl, rfl⟩⟩
  · intro m hcmd hidx hin
    have hsw := execute_switch_in true m
    rw [if_pos hidx, hin] at hsw
    have hzero : char_to_uint8
        (if int_to_char true (getchar []).1 = EOF then 0 else int_to_char true (getchar []).1)
        = 0 := by decide
    have hrest : (getchar []).2 = [] := rfl
    rw [hzero, hrest] at hsw
    simp only [parse_and_execute_command, get_current_command, hcmd, hsw]
    simp [has_executed_last_command]
  · intro m m1 st hin h
    exact (parse_and_execute_command_frame true m m1 st h).2.2.2.1 hin

/-- Witness of C7: the first step of `,.` on the empty input, from a tape that
holds 7 in every cell. -/
theorem end_of_input_reads_as_zero_witness :
    parse_and_execute_command true
        { program := { instruction_idx := 0, data_idx := 0,
                       src_file_content := source_of_string ",.", data := fun _ => 7 },
          stdin := [], stdout := [], stderr := [] } =
      Except.ok
        (if (0 + 1) % UINT64_RANGE ≥ (source_of_string ",.").size
          then ProgramState.Done else ProgramState.Running,
         Machine.with_instruction_idx
           { program := { instruction_idx := 0, data_idx := 0,
                          src_file_content := source_of_string ",.",
                          data := Function.update (fun _ => 7) 0 0 },
             stdin := [], stdout := [], stderr := [] }
           ((0 + 1) % UINT64_RANGE)) :=
  end_of_input_reads_as_zero.1
    { program := { instruction_idx := 0, data_idx := 0,
                   src_file_content := source_of_string ",.", data := fun _ => 7 },
      stdin := [], stdout := [], stderr := [] }
    (by decide) (by decide) rfl

/-! ## Completion -/

/-- C8 (counterexample): on the program `[` run from the initial state the step
returns `Done` with the instruction cursor at 2, which is not the length 1 of
the program and lies outside `[0, 1]`. -/
theorem done_with_cursor_past_length :
    parse_and_execute_command true (init_machine (source_of_string "[") []) =
        Except.ok (ProgramState.Done,
          Machine.with_instruction_idx
            { init_machine (source_of_string "[") [] with stderr := [MSG_LOOP_END] } 2) ∧
      (2 : Nat) ≠ (source_of_string "[").size ∧
      Reachable true (init_machine (source_of_string "[") []) ProgramState.Done
        (Machine.with_instruction_idx
          { init_machine (source_of_string "[") [] with stderr := [MSG_LOOP_END] } 2) :=
  ⟨rfl, by decide, Reachable.step _ _ _ Reachable.start rfl⟩

/-- C8 (amended): whenever `parse_and_execute_command` returns, the instruction
cursor was below the length before the call, and the call returns `Done` if and
only if the instruction cursor after the step is at least the program length,
`Running` otherwise; hence in every state that the loop of `execute` reaches
from the initial state the program text is the initial one and the instruction
cursor lies in `[0, length + 1]`, and it is below the length whenever the last
call returned `Running` on a non-empty program. -/
theorem done_iff_cursor_at_or_past_length :
    (∀ (char_signed : Bool) (m m1 : Machine) (st : ProgramState),
        parse_and_execute_command char_signed m = Except.ok (st, m1) →
        m.program.instruction_idx < m.program.src_file_content.size ∧
        (st = ProgramState.Done ↔
          m1.program.instruction_idx ≥ m1.program.src_file_content.size) ∧
        (st = ProgramState.Running ↔
          m1.program.instruction_idx < m1.program.src_file_content.size)) ∧
      (∀ (char_signed : Bool) (src : FileContent) (input : List Nat) (st : ProgramState)
          (m : Machine),
        Reachable char_signed (init_machine src input) st m →
        m.program.src_file_content = src ∧
        m.program.instruction_idx ≤ src.size + 1 ∧
        (st = ProgramState.Running → 0 < src.size → m.program.instruction_idx < src.size)) := by
  constructor
  · intro char_signed m m1 st h
    obtain ⟨hlt, _, _, _, hdone⟩ := parse_and_execute_command_frame char_signed m m1 st h
    refine ⟨hlt, hdone, ?_⟩
    cases st
    · simp only [false_iff, not_lt, reduceCtorEq]
      exact hdone.mp rfl
    · simp only [true_iff]
      by_contra hge
      have := hdone.mpr (by omega)
      cases this
  · intro char_signed src input st m hr
    induction hr with
    | start =>
      refine ⟨rfl, Nat.zero_le _, fun _ hpos => hpos⟩
    | step m m1 st _ hstep ih =>
      obtain ⟨hsrc, _, _⟩ := ih
      obtain ⟨_, h1, h2, _, hdone⟩ := parse_and_execute_command_frame char_signed m m1 st hstep
      rw [hsrc] at h1 h2
      refine ⟨h1, h2, fun hrun _ => ?_⟩
      by_contra hge
      rw [h1] at hdone
      have := hdone.mpr (by omega)
      rw [hrun] at this
      cases this

/-- Witness of C8 (amended): the step of the program `[` from the initial
state, which returns `Done` with the cursor at 2. -/
theorem done_iff_cursor_at_or_past_length_witness :
    (init_machine (source_of_string "[") []).program.instruction_idx
        < (init_machine (source_of_string "[") []).program.src_file_content.size ∧
      (ProgramState.Done = ProgramState.Done ↔
        (Machine.with_instruction_idx
          { init_machine (source_of_string "[") [] with stderr := [MSG_LOOP_END] }
            2).program.instruction_idx ≥
        (Machine.with_instruction_idx
          { init_machine (source_of_string "[") [] with stderr := [MSG_LOOP_END] }
            2).program.src_file_content.size) ∧
      (ProgramState.Done = ProgramState.Running ↔
        (Machine.with_instruction_idx
          { init_machine (source_of_string "[") [] with stderr := [MSG_LOOP_END] }
            2).program.instruction_idx <
        (Machine.with_instruction_idx
          { init_machine (source_of_string "[") [] with stderr := [MSG_LOOP_END] }
            2).program.src_file_content.size) :=
  done_iff_cursor_at_or_past_length.1 true (init_machine (source_of_string "[") [])
    (Machine.with_instruction_idx
      { init_machine (source_of_string "[") [] with stderr := [MSG_LOOP_END] } 2)
    ProgramState.Done rfl

/-! ## A lone `[` on a nonzero cell -/

/-- C9 (counterexample): the program `[` run from the state whose cells all
hold 1 reaches `Done` at the first step: `execute` returns. -/
theorem lone_open_on_nonzero_cell_halts :
    execute 1 true
        { program := { instruction_idx := 0, data_idx := 0,
                       src_file_content := source_of_string "[", data := fun _ => 1 },
          stdin := [], stdout := [], stderr := [] } =
      Except.ok
        { program := { instruction_idx := 1, data_idx := 0,
                       src_file_content := source_of_string "[", data := fun _ => 1 },
          stdin := [], stdout := [], stderr := [] } :=
  rfl

/-- C9 (amended): a program consisting solely of `[`, run from instruction
cursor 0 in a state whose current cell is nonzero, terminates: the first call of
`parse_and_execute_command` makes no scan, reports no error, moves the
instruction cursor to 1 and returns `Done`, so `execute` returns after that
single call with nothing else changed. -/
theorem lone_open_on_nonzero_cell_is_done_after_one_step (char_signed : Bool) (m : Machine)
    (hsrc : m.program.src_file_content.buffer = [CMD_OPEN])
    (hic : m.program.instruction_idx = 0)
    (hidx : m.program.data_idx < PROGRAM_DATA_SIZE)
    (hcell : m.program.data m.program.data_idx ≠ 0) :
    parse_and_execute_command char_signed m =
        Except.ok (ProgramState.Done, m.with_instruction_idx 1) ∧
      ∀ fuel, execute (fuel + 1) char_signed m = Except.ok (m.with_instruction_idx 1) := by
  have hstep : parse_and_execute_command char_signed m =
      Except.ok (ProgramState.Done, m.with_instruction_idx 1) := by
    have hsw := execute_switch_open char_signed m
    rw [if_pos hidx, if_neg hcell] at hsw
    have hcmd : m.program.src_file_content.buffer[m.program.instruction_idx]? = some CMD_OPEN := by
      rw [hsrc, hic]; rfl
    have hone : (m.program.instruction_idx + 1) % UINT64_RANGE = 1 := by rw [hic]; rfl
    simp only [parse_and_execute_command, get_current_command, hcmd, hsw, hone,
      has_executed_last_command, with_instruction_idx_program, FileContent.size]
    simp [hsrc]
  exact ⟨hstep, fun fuel => execute_of_done char_signed m _ fuel hstep⟩

/-- Witness of C9 (amended): the program `[` on a tape that holds 1 in every
cell. -/
theorem lone_open_on_nonzero_cell_is_done_after_one_step_witness :
    parse_and_execute_command true
        { program := { instruction_idx := 0, data_idx := 0,
                       src_file_content := source_of_string "[", data := fun _ => 1 },
          stdin := [], stdout := [], stderr := [] } =
        Except.ok (ProgramState.Done,
          Machine.with_instruction_idx
            { program := { instruction_idx := 0, data_idx := 0,
                           src_file_content := source_of_string "[", data := fun _ => 1 },
              stdin := [], stdout := [], stderr := [] } 1) ∧
      ∀ fuel, execute (fuel + 1) true
        { program := { instruction_idx := 0, data_idx := 0,
                       src_file_content := source_of_string "[", data := fun _ => 1 },
          stdin := [], stdout := [], stderr := [] } =
        Except.ok (Machine.with_instruction_idx
          { program := { instruction_idx := 0, data_idx := 0,
                         src_file_content := source_of_string "[", data := fun _ => 1 },
            stdin := [], stdout := [], stderr := [] } 1) :=
  lone_open_on_nonzero_cell_is_done_after_one_step true _ (by decide) rfl (by decide) (by decide)

/-! ## Data cursor -/

/-- C10: from a data cursor `d < 32768`, a step executing `>` sets the data
cursor to `(d + 1) mod 32768` and a step executing `<` sets it to
`(d + 32767) mod 32768`, each changing nothing else but the instruction cursor;
in particular `<` from 0 gives 32767 and `>` from 32767 gives 0. -/
theorem data_cursor_moves_are_modular :
    (∀ (char_signed : Bool) (m : Machine),
        m.program.src_file_content.buffer[m.program.instruction_idx]? = some CMD_RIGHT →
        m.program.data_idx < 32768 →
        parse_and_execute_command char_signed m =
          Except.ok
            (if (m.program.instruction_idx + 1) % UINT64_RANGE ≥ m.program.src_file_content.size
              then ProgramState.Done else ProgramState.Running,
             Machine.with_instruction_idx
               { m with program := { m.program with
                   data_idx := (m.program.data_idx + 1) % 32768 } }
               ((m.program.instruction_idx + 1) % UINT64_RANGE))) ∧
      (∀ (char_signed : Bool) (m : Machine),
        m.program.src_file_content.buffer[m.program.instruction_idx]? = some CMD_LEFT →
        m.program.data_idx < 32768 →
        parse_and_execute_command char_signed m =
          Except.ok
            (if (m.program.instruction_idx + 1) % UINT64_RANGE ≥ m.program.src_file_content.size
              then ProgramState.Done else ProgramState.Running,
             Machine.with_instruction_idx
               { m with program := { m.program with
                   data_idx := (m.program.data_idx + 32767) % 32768 } }
               ((m.program.instruction_idx + 1) % UINT64_RANGE))) ∧
      (∀ (char_signed : Bool) (m m1 : Machine) (st : ProgramState),
        m.program.src_file_content.buffer[m.program.instruction_idx]? = some CMD_LEFT →
        m.program.data_idx = 0 →
        parse_and_execute_command char_signed m = Except.ok (st, m1) →
        m1.program.data_idx = 32767) ∧
      (∀ (char_signed : Bool) (m m1 : Machine) (st : ProgramState),
        m.program.src_file_content.buffer[m.program.instruction_idx]? = some CMD_RIGHT →
        m.program.data_idx = 32767 →
        parse_and_execute_command char_signed m = Except.ok (st, m1) →
        m1.program.data_idx = 0) := by
  have hright : ∀ (char_signed : Bool) (m : Machine),
      m.program.src_file_content.buffer[m.program.instruction_idx]? = some CMD_RIGHT →
      m.program.data_idx < 32768 →
      parse_and_execute_command char_signed m =
        Except.ok
          (if (m.program.instruction_idx + 1) % UINT64_RANGE ≥ m.program.src_file_content.size
            then ProgramState.Done else ProgramState.Running,
           Machine.with_instruction_idx
             { m with program := { m.program with
                 data_idx := (m.program.data_idx + 1) % 32768 } }
             ((m.program.instruction_idx + 1) % UINT64_RANGE)) := by
    intro char_signed m hcmd hd
    have hsw := execute_switch_right char_signed m
    have harith : ((m.program.data_idx + 1) % UINT64_RANGE) % PROGRAM_DATA_SIZE
        = (m.program.data_idx + 1) % 32768 := by
      rw [PROGRAM_DATA_SIZE_eq]
      simp only [UINT64_RANGE]
      omega
    rw [harith] at hsw
    simp only [parse_and_execute_command, get_current_command, hcmd, hsw]
    simp [has_executed_last_command]
  have hleft : ∀ (char_signed : Bool) (m : Machine),
      m.program.src_file_content.buffer[m.program.instruction_idx]? = some CMD_LEFT →
      m.program.data_idx < 32768 →
      parse_and_execute_command char_signed m =
        Except.ok
          (if (m.program.instruction_idx + 1) % UINT64_RANGE ≥ m.program.src_file_content.size
            then ProgramState.Done else ProgramState.Running,
           Machine.with_instruction_idx
             { m with program := { m.program with
                 data_idx := (m.program.data_idx + 32767) % 32768 } }
             ((m.program.instruction_idx + 1) % UINT64_RANGE)) := by
    intro char_signed m hcmd hd
    have hsw := execute_switch_left char_signed m
    have harith : (UINT64_RANGE - 1 + (if m.program.data_idx = 0 then PROGRAM_DATA_SIZE
          else m.program.data_idx)) % UINT64_RANGE
        = (m.program.data_idx + 32767) % 32768 := by
      rw [PROGRAM_DATA_SIZE_eq]
      simp only [UINT64_RANGE]
      split_ifs <;> omega
    rw [harith] at hsw
    simp only [parse_and_execute_command, get_current_command, hcmd, hsw]
    simp [has_executed_last_command]
  refine ⟨hright, hleft, ?_, ?_⟩
  · intro char_signed m m1 st hcmd hd h
    rw [hleft char_signed m hcmd (by omega)] at h
    simp only [Except.ok.injEq, Prod.mk.injEq] at h
    rw [← h.2, with_instruction_idx_data_idx]
    show (m.program.data_idx + 32767) % 32768 = 32767
    rw [hd]
  · intro char_signed m m1 st hcmd hd h
    rw [hright char_signed m hcmd (by omega)] at h
    simp only [Except.ok.injEq, Prod.mk.injEq] at h
    rw [← h.2, with_instruction_idx_data_idx]
    show (m.program.data_idx + 1) % 32768 = 0
    rw [hd]

/-- Witness of C10: `>` executed with the data cursor on the last cell. -/
theorem data_cursor_moves_are_modular_witness :
    parse_and_execute_command true
        { program := { instruction_idx := 0, data_idx := 32767,
                       src_file_content := source_of_string "><", data := fun _ => 0 },
          stdin := [], stdout := [], stderr := [] } =
      Except.ok
        (if (0 + 1) % UINT64_RANGE ≥ (source_of_string "><").size
          then ProgramState.Done else ProgramState.Running,
         Machine.with_instruction_idx
           { program := { instruction_idx := 0, data_idx := (32767 + 1) % 32768,
                          src_file_content := source_of_string "><", data := fun _ => 0 },
             stdin := [], stdout := [], stderr := [] }
           ((0 + 1) % UINT64_RANGE)) :=
  data_cursor_moves_are_modular.1 true
    { program := { instruction_idx := 0, data_idx := 32767,
                   src_file_content := source_of_string "><", data := fun _ => 0 },
      stdin := [], stdout := [], stderr := [] }
    (by decide) (by decide)

/-! ## The data cursor stays inside the tape -/

/-- C11: in every state that the loop of `execute` reaches from the initial
state, for every program and every input, the data cursor is below 32768, the
number of cells of the tape (which is fixed at allocation), so that the read
and the write of the cell under the data cursor are in bounds and no call of
`parse_and_execute_command` made from that state accesses the tape out of
bounds. -/
theorem data_cursor_always_indexes_tape (char_signed : Bool) (src : FileContent)
    (input : List Nat) (st : ProgramState) (m : Machine)
    (hr : Reachable char_signed (init_machine src input) st m) :
    m.program.data_idx < 32768 ∧ PROGRAM_DATA_SIZE = 32768 ∧
      read_cell m.program = Except.ok (m.program.data m.program.data_idx) ∧
      (∀ v, write_cell m.program v = Except.ok (m.with_cell v).program) ∧
      parse_and_execute_command char_signed m ≠
        Except.error Fault.data_access_out_of_bounds := by
  have hd := reachable_data_idx_lt char_signed src input st m hr
  refine ⟨hd, rfl, ?_, ?_, parse_and_execute_command_data_in_bounds char_signed m hd⟩
  · simp only [read_cell, hd, if_true]
  · intro v
    simp only [write_cell, hd, if_true, Machine.with_cell]

/-- Witness of C11: the state after the first step of `<+` from the initial
state, where the data cursor has wrapped to 32767. -/
theorem data_cursor_always_indexes_tape_witness :
    (Machine.with_instruction_idx
        { init_machine (source_of_string "<+") [] with
          program := { (init_machine (source_of_string "<+") []).program with
            data_idx := 32767 } } 1).program.data_idx < 32768 ∧
      PROGRAM_DATA_SIZE = 32768 ∧
      read_cell (Machine.with_instruction_idx
        { init_machine (source_of_string "<+") [] with
          program := { (init_machine (source_of_string "<+") []).program with
            data_idx := 32767 } } 1).program = Except.ok 0 ∧
      (∀ v, write_cell (Machine.with_instruction_idx
        { init_machine (source_of_string "<+") [] with
          program := { (init_machine (source_of_string "<+") []).program with
            data_idx := 32767 } } 1).program v =
          Except.ok (Machine.with_cell (Machine.with_instruction_idx
            { init_machine (source_of_string "<+") [] with
              program := { (init_machine (source_of_string "<+") []).program with
                data_idx := 32767 } } 1) v).program) ∧
      parse_and_execute_command true (Machine.with_instruction_idx
        { init_machine (source_of_string "<+") [] with
          program := { (init_machine (source_of_string "<+") []).program with
            data_idx := 32767 } } 1) ≠ Except.error Fault.data_access_out_of_bounds :=
  data_cursor_always_indexes_tape true (source_of_string "<+") [] ProgramState.Running _
    (Reachable.step _ _ _ Reachable.start rfl)

/-! ## Cell arithmetic -/

/-- C12: a step executing `+` sets the current cell, of value `v`, to
`(v + 1) mod 256`, and a step executing `-` sets it to `(v + 255) mod 256`, each
changing nothing else but the instruction cursor; 256 consecutive `+`, and 256
consecutive `-`, leave every cell as it was when `v` is a byte. -/
theorem cell_arithmetic_is_modulo_256 :
    (∀ (char_signed : Bool) (m : Machine),
        m.program.src_file_content.size < UINT64_RANGE →
        m.program.src_file_content.buffer[m.program.instruction_idx]? = some CMD_INC →
        m.program.data_idx < PROGRAM_DATA_SIZE →
        parse_and_execute_command char_signed m =
          Except.ok
            (if m.program.instruction_idx + 1 ≥ m.program.src_file_content.size
              then ProgramState.Done else ProgramState.Running,
             (m.with_cell ((m.program.data m.program.data_idx + 1) % 256)).with_instruction_idx
               (m.program.instruction_idx + 1))) ∧
      (∀ (char_signed : Bool) (m : Machine),
        m.program.src_file_content.size < UINT64_RANGE →
        m.program.src_file_content.buffer[m.program.instruction_idx]? = some CMD_DEC →
        m.program.data_idx < PROGRAM_DATA_SIZE →
        parse_and_execute_command char_signed m =
          Except.ok
            (if m.program.instruction_idx + 1 ≥ m.program.src_file_content.size
              then ProgramState.Done else ProgramState.Running,
             (m.with_cell ((m.program.data m.program.data_idx + 255) % 256)).with_instruction_idx
               (m.program.instruction_idx + 1))) ∧
      (∀ (char_signed : Bool) (m : Machine),
        m.program.src_file_content.size < UINT64_RANGE →
        m.program.data_idx < PROGRAM_DATA_SIZE →
        m.program.data m.program.data_idx < 256 →
        (∀ k, k < 256 →
          m.program.src_file_content.buffer[m.program.instruction_idx + k]? = some CMD_INC) →
        execute_steps 256 char_signed m =
          Except.ok
            (if m.program.instruction_idx + 256 ≥ m.program.src_file_content.size
              then ProgramState.Done else ProgramState.Running,
             m.with_instruction_idx (m.program.instruction_idx + 256))) ∧
      (∀ (char_signed : Bool) (m : Machine),
        m.program.src_file_content.size < UINT64_RANGE →
        m.program.data_idx < PROGRAM_DATA_SIZE →
        m.program.data m.program.data_idx < 256 →
        (∀ k, k < 256 →
          m.program.src_file_content.buffer[m.program.instruction_idx + k]? = some CMD_DEC) →
        execute_steps 256 char_signed m =
          Except.ok
            (if m.program.instruction_idx + 256 ≥ m.program.src_file_content.size
              then ProgramState.Done else ProgramState.Running,
             m.with_instruction_idx (m.program.instruction_idx + 256))) := by
  refine ⟨?_, ?_, ?_, ?_⟩
  · intro char_signed m hsize hcmd hidx
    exact step_inc char_signed m hsize hcmd hidx
  · intro char_signed m hsize hcmd hidx
    rw [step_dec char_signed m hsize hcmd hidx]
    have harith : (UINT8_RANGE - 1 + m.program.data m.program.data_idx) % UINT8_RANGE
        = (m.program.data m.program.data_idx + 255) % 256 := by
      simp only [UINT8_RANGE]; omega
    rw [harith]
  · intro char_signed m hsize hidx hv hcmds
    have h := execute_steps_inc char_signed 255 m hsize hidx
      (fun k hk => hcmds k (by omega))
    have harith : (m.program.data m.program.data_idx + (255 + 1)) % UINT8_RANGE
        = m.program.data m.program.data_idx := by
      simp only [UINT8_RANGE]; omega
    rw [harith, with_cell_self] at h
    exact h
  · intro char_signed m hsize hidx hv hcmds
    have h := execute_steps_dec char_signed 255 m hsize hidx
      (fun k hk => hcmds k (by omega))
    have harith : (m.program.data m.program.data_idx + 255 * (255 + 1)) % UINT8_RANGE
        = m.program.data m.program.data_idx := by
      simp only [UINT8_RANGE]; omega
    rw [harith, with_cell_self] at h
    exact h

/-- Witness of C12: `+` executed on a cell that holds 255. -/
theorem cell_arithmetic_is_modulo_256_witness :
    parse_and_execute_command true
        { program := { instruction_idx := 0, data_idx := 0,
                       src_file_content := source_of_string "+-", data := fun _ => 255 },
          stdin := [], stdout := [], stderr := [] } =
      Except.ok
        (if 0 + 1 ≥ (source_of_string "+-").size
          then ProgramState.Done else ProgramState.Running,
         Machine.with_instruction_idx
           (Machine.with_cell
             { program := { instruction_idx := 0, data_idx := 0,
                            src_file_content := source_of_string "+-", data := fun _ => 255 },
               stdin := [], stdout := [], stderr := [] }
             ((255 + 1) % 256))
           (0 + 1)) :=
  cell_arithmetic_is_modulo_256.1 true
    { program := { instruction_idx := 0, data_idx := 0,
                   src_file_content := source_of_string "+-", data := fun _ => 255 },
      stdin := [], stdout := [], stderr := [] }
    (by decide) (by decide) (by decide)

/-! ## Bytes that are not commands -/

/-- C15: when the instruction cursor points at a byte that is none of `>`, `<`,
`+`, `-`, `.`, `,`, `[`, `]`, one step returns the machine with the instruction
cursor advanced by exactly one and nothing else changed: the tape, the data
cursor, the output, the unread input and the error stream are the same. -/
theorem non_command_byte_is_a_no_op (char_signed : Bool) (m : Machine) (command : Nat)
    (hsize : m.program.src_file_content.size < UINT64_RANGE)
    (hcmd : m.program.src_file_content.buffer[m.program.instruction_idx]? = some command)
    (h1 : command ≠ CMD_RIGHT) (h2 : command ≠ CMD_LEFT) (h3 : command ≠ CMD_INC)
    (h4 : command ≠ CMD_DEC) (h5 : command ≠ CMD_OUT) (h6 : command ≠ CMD_IN)
    (h7 : command ≠ CMD_OPEN) (h8 : command ≠ CMD_CLOSE) :
    parse_and_execute_command char_signed m =
      Except.ok
        (if m.program.instruction_idx + 1 ≥ m.program.src_file_content.size
          then ProgramState.Done else ProgramState.Running,
         m.with_instruction_idx (m.program.instruction_idx + 1)) :=
  step_default char_signed m command hsize hcmd h1 h2 h3 h4 h5 h6 h7 h8

/-- Witness of C15: the letter `a` in the program `a+`, with one unread input
byte. -/
theorem non_command_byte_is_a_no_op_witness :
    parse_and_execute_command true (init_machine (source_of_string "a+") [7]) =
      Except.ok
        (if (init_machine (source_of_string "a+") [7]).program.instruction_idx + 1 ≥
            (init_machine (source_of_string "a+") [7]).program.src_file_content.size
          then ProgramState.Done else ProgramState.Running,
         (init_machine (source_of_string "a+") [7]).with_instruction_idx
           ((init_machine (source_of_string "a+") [7]).program.instruction_idx + 1)) :=
  non_command_byte_is_a_no_op true (init_machine (source_of_string "a+") [7]) 97
    (by decide) (by decide) (by decide) (by decide) (by decide) (by decide) (by decide)
    (by decide) (by decide) (by decide)

/-! ## Output -/

/-- C16: a step executing `.` appends exactly one byte, the value of the cell
under the data cursor, to the end of the output and changes nothing else but
the instruction cursor; a step executing any other byte leaves the output as it
was. -/
theorem output_is_one_byte_per_dot :
    (∀ (char_signed : Bool) (m : Machine),
        m.program.src_file_content.size < UINT64_RANGE →
        m.program.src_file_content.buffer[m.program.instruction_idx]? = some CMD_OUT →
        m.program.data_idx < PROGRAM_DATA_SIZE →
        parse_and_execute_command char_signed m =
          Except.ok
            (if m.program.instruction_idx + 1 ≥ m.program.src_file_content.size
              then ProgramState.Done else ProgramState.Running,
             Machine.with_instruction_idx
               { m with stdout := m.stdout ++ [m.program.data m.program.data_idx] }
               (m.program.instruction_idx + 1))) ∧
      (∀ (char_signed : Bool) (m m1 : Machine) (st : ProgramState) (command : Nat),
        m.program.src_file_content.buffer[m.program.instruction_idx]? = some command →
        command ≠ CMD_OUT →
        parse_and_execute_command char_signed m = Except.ok (st, m1) →
        m1.stdout = m.stdout) := by
  constructor
  · intro char_signed m hsize hcmd hidx
    exact step_out char_signed m hsize hcmd hidx
  · intro char_signed m m1 st command hcmd hne h
    obtain ⟨c, hc, _, _, _, _, hout, _, _⟩ :=
      parse_and_execute_command_effect char_signed m m1 st h
    rw [hcmd] at hc
    simp only [Option.some.injEq] at hc
    subst hc
    exact hout hne

/-- Witness of C16: `.` executed on a cell that holds 65, after the output
`[1]`. -/
theorem output_is_one_byte_per_dot_witness :
    parse_and_execute_command true
        { program := { instruction_idx := 0, data_idx := 0,
                       src_file_content := source_of_string ".", data := fun _ => 65 },
          stdin := [], stdout := [1], stderr := [] } =
      Except.ok
        (if 0 + 1 ≥ (source_of_string ".").size
          then ProgramState.Done else ProgramState.Running,
         Machine.with_instruction_idx
           { program := { instruction_idx := 0, data_idx := 0,
                          src_file_content := source_of_string ".", data := fun _ => 65 },
             stdin := [], stdout := [1] ++ [(fun _ => 65) 0], stderr := [] }
           (0 + 1)) :=
  output_is_one_byte_per_dot.1 true
    { program := { instruction_idx := 0, data_idx := 0,
                   src_file_content := source_of_string ".", data := fun _ => 65 },
      stdin := [], stdout := [1], stderr := [] }
    (by decide) (by decide) (by decide)

/-! ## Brackets that do not jump -/

/-- C17: when the instruction cursor `i` points at `[` with a nonzero current
cell, or at `]` with a zero current cell, one step makes no scan and returns
the machine with the instruction cursor set to `i + 1` and nothing else
changed, the error stream included, whether or not the bracket has a match. -/
theorem bracket_that_does_not_jump_only_advances :
    (∀ (char_signed : Bool) (m : Machine),
        m.program.src_file_content.size < UINT64_RANGE →
        m.program.src_file_content.buffer[m.program.instruction_idx]? = some CMD_OPEN →
        m.program.data_idx < PROGRAM_DATA_SIZE →
        m.program.data m.program.data_idx ≠ 0 →
        execute_switch char_signed CMD_OPEN m = Except.ok m ∧
        parse_and_execute_command char_signed m =
          Except.ok
            (if m.program.instruction_idx + 1 ≥ m.program.src_file_content.size
              then ProgramState.Done else ProgramState.Running,
             m.with_instruction_idx (m.program.instruction_idx + 1))) ∧
      (∀ (char_signed : Bool) (m : Machine),
        m.program.src_file_content.size < UINT64_RANGE →
        m.program.src_file_content.buffer[m.program.instruction_idx]? = some CMD_CLOSE →
        m.program.data_idx < PROGRAM_DATA_SIZE →
        m.program.data m.program.data_idx = 0 →
        execute_switch char_signed CMD_CLOSE m = Except.ok m ∧
        parse_and_execute_command char_signed m =
          Except.ok
            (if m.program.instruction_idx + 1 ≥ m.program.src_file_content.size
              then ProgramState.Done else ProgramState.Running,
             m.with_instruction_idx (m.program.instruction_idx + 1))) := by
  constructor
  · intro char_signed m hsize hcmd hidx hcell
    refine ⟨?_, step_open_nonzero char_signed m hsize hcmd hidx hcell⟩
    rw [execute_switch_open, if_pos hidx, if_neg hcell]
  · intro char_signed m hsize hcmd hidx hcell
    refine ⟨?_, step_close_zero char_signed m hsize hcmd hidx hcell⟩
    rw [execute_switch_close, if_pos hidx, if_neg (not_not.mpr hcell)]

/-- Witness of C17: the unmatched `]` of the program `]+` on the zero tape. -/
theorem bracket_that_does_not_jump_only_advances_witness :
    execute_switch true CMD_CLOSE (init_machine (source_of_string "]+") []) =
        Except.ok (init_machine (source_of_string "]+") []) ∧
      parse_and_execute_command true (init_machine (source_of_string "]+") []) =
        Except.ok
          (if (init_machine (source_of_string "]+") []).program.instruction_idx + 1 ≥
              (init_machine (source_of_string "]+") []).program.src_file_content.size
            then ProgramState.Done else ProgramState.Running,
           (init_machine (source_of_string "]+") []).with_instruction_idx
             ((init_machine (source_of_string "]+") []).program.instruction_idx + 1)) :=
  bracket_that_does_not_jump_only_advances.2 true (init_machine (source_of_string "]+") [])
    (by decide) (by decide) (by decide) (by decide)

/-! ## The frame of a step -/

/-- C20: whatever command one step executes, it leaves every tape cell other
than the one under the data cursor of before the step unchanged and leaves the
program text, hence its length, unchanged; unless the command is `+`, `-` or
`,` the whole tape is unchanged, and unless it is `>` or `<` the data cursor is
unchanged. -/
theorem writes_touch_only_the_current_cell (char_signed : Bool) (m m1 : Machine)
    (st : ProgramState)
    (h : parse_and_execute_command char_signed m = Except.ok (st, m1)) :
    ∃ command, m.program.src_file_content.buffer[m.program.instruction_idx]? = some command ∧
      (∀ i, i ≠ m.program.data_idx → m1.program.data i = m.program.data i) ∧
      m1.program.src_file_content = m.program.src_file_content ∧
      m1.program.src_file_content.size = m.program.src_file_content.size ∧
      (command ≠ CMD_INC → command ≠ CMD_DEC → command ≠ CMD_IN →
        m1.program.data = m.program.data) ∧
      (command ≠ CMD_RIGHT → command ≠ CMD_LEFT →
        m1.program.data_idx = m.program.data_idx) := by
  obtain ⟨command, hcmd, hsrc, hother, hdata, hidx, _, _, _⟩ :=
    parse_and_execute_command_effect char_signed m m1 st h
  exact ⟨command, hcmd, hother, hsrc, by rw [hsrc], hdata, hidx⟩

/-- Witness of C20: the step executing `+` on the program `+.` from the initial
state. -/
theorem writes_touch_only_the_current_cell_witness :
    ∃ command,
      (init_machine (source_of_string "+.") []).program.src_file_content.buffer[
        (init_machine (source_of_string "+.") []).program.instruction_idx]? = some command ∧
      (∀ i, i ≠ (init_machine (source_of_string "+.") []).program.data_idx →
        (Machine.with_instruction_idx
          (Machine.with_cell (init_machine (source_of_string "+.") []) 1) 1).program.data i =
          (init_machine (source_of_string "+.") []).program.data i) ∧
      (Machine.with_instruction_idx
          (Machine.with_cell (init_machine (source_of_string "+.") []) 1) 1
        ).program.src_file_content =
        (init_machine (source_of_string "+.") []).program.src_file_content ∧
      (Machine.with_instruction_idx
          (Machine.with_cell (init_machine (source_of_string "+.") []) 1) 1
        ).program.src_file_content.size =
        (init_machine (source_of_string "+.") []).program.src_file_content.size ∧
      (command ≠ CMD_INC → command ≠ CMD_DEC → command ≠ CMD_IN →
        (Machine.with_instruction_idx
          (Machine.with_cell (init_machine (source_of_string "+.") []) 1) 1).program.data =
          (init_machine (source_of_string "+.") []).program.data) ∧
      (command ≠ CMD_RIGHT → command ≠ CMD_LEFT →
        (Machine.with_instruction_idx
          (Machine.with_cell (init_machine (source_of_string "+.") []) 1) 1).program.data_idx =
          (init_machine (source_of_string "+.") []).program.data_idx) :=
  writes_touch_only_the_current_cell true (init_machine (source_of_string "+.") [])
    (Machine.with_instruction_idx
      (Machine.with_cell (init_machine (source_of_string "+.") []) 1) 1)
    ProgramState.Running rfl

/-! ## The nested clear loop -/

/-- C14: for every starting value `v` in 0..255 of the current cell, running the
program `[[-]]` from instruction cursor 0 terminates (`execute` returns, which
it does only when a call has returned `Done`) with the current cell equal to 0,
the instruction cursor equal to 5 and nothing else changed: the other cells,
the data cursor and the output are the same.  For `v = 0` this happens in a
single call, the `[` at position 0 being matched with the `]` at position 4 and
not with the one at position 3. -/
theorem nested_clear_loop_clears_the_cell (char_signed : Bool) (m : Machine) (v : Nat)
    (hsrc : m.program.src_file_content.buffer
      = [CMD_OPEN, CMD_OPEN, CMD_DEC, CMD_CLOSE, CMD_CLOSE])
    (hic : m.program.instruction_idx = 0)
    (hidx : m.program.data_idx < PROGRAM_DATA_SIZE)
    (hcell : m.program.data m.program.data_idx = v)
    (hv : v < 256) :
    (∀ fuel, 2 * v + 3 ≤ fuel →
        execute fuel char_signed m = Except.ok ((m.with_cell 0).with_instruction_idx 5)) ∧
      (v = 0 →
        parse_and_execute_command char_signed m =
          Except.ok (ProgramState.Done, m.with_instruction_idx 5)) ∧
      is_matching_close m.program.src_file_content.buffer 0 4 ∧
      ¬ is_matching_close m.program.src_file_content.buffer 0 3 := by
  have hsize5 : m.program.src_file_content.size = 5 := by
    simp only [FileContent.size, hsrc]; rfl
  have hsize : m.program.src_file_content.size < UINT64_RANGE := by
    rw [hsize5]; decide
  have h0 : m.program.src_file_content.buffer[m.program.instruction_idx]? = some CMD_OPEN := by
    rw [hsrc, hic]; rfl
  have h1 : m.program.src_file_content.buffer[1]? = some CMD_OPEN := by rw [hsrc]; rfl
  have hm4 : is_matching_close m.program.src_file_content.buffer m.program.instruction_idx 4 := by
    rw [hsrc, hic]; exact nested_clear_matching_close
  have hzero : v = 0 →
      parse_and_execute_command char_signed m =
        Except.ok (ProgramState.Done, m.with_instruction_idx 5) := by
    intro hv0
    have s := step_open_zero char_signed m 4 hsize h0 hidx (by rw [hcell, hv0]) hm4
    rw [hsize5, if_pos (by decide)] at s
    exact s
  refine ⟨?_, hzero, ?_, ?_⟩
  · intro fuel hfuel
    rcases Nat.eq_zero_or_pos v with hv0 | hpos
    · obtain ⟨fuel, rfl⟩ : ∃ f, fuel = f + 1 := ⟨fuel - 1, by omega⟩
      rw [execute_of_done char_signed _ _ _ (hzero hv0)]
      have hself : m.with_cell 0 = m := by
        have := with_cell_self m
        rw [hcell, hv0] at this
        exact this
      rw [hself]
    · obtain ⟨c, rfl⟩ : ∃ c, v = c + 1 := ⟨v - 1, by omega⟩
      obtain ⟨fuel, rfl⟩ : ∃ f, fuel = f + 2 := ⟨fuel - 2, by omega⟩
      have hself : (m.with_cell (c + 1)).with_instruction_idx 0 = m := by
        have := with_cell_self m
        rw [hcell] at this
        rw [this, ← hic]
        rfl
      have s1 := nf_step_open_nonzero char_signed m (c + 1) 0 hsize
        (by rw [← hic]; exact h0) hidx (Nat.succ_ne_zero c)
      rw [hself, hsize5, if_neg (by decide)] at s1
      have s2 := nf_step_open_nonzero char_signed m (c + 1) (0 + 1) hsize h1 hidx
        (Nat.succ_ne_zero c)
      rw [hsize5, if_neg (by decide)] at s2
      rw [execute_succ_of_running char_signed _ _ _ s1,
        execute_succ_of_running char_signed _ _ _ s2]
      exact nested_clear_inner_loop char_signed m hsrc hidx c fuel hv (by omega)
  · rw [hsrc]; exact nested_clear_matching_close
  · rw [hsrc]
    intro h
    exact absurd h.2.2.1 (by decide)

/-- Witness of C14: the program `[[-]]` run on a tape that holds 3 in every
cell. -/
theorem nested_clear_loop_clears_the_cell_witness :
    (∀ fuel, 2 * 3 + 3 ≤ fuel →
        execute fuel true
            { program := { instruction_idx := 0, data_idx := 0,
                           src_file_content := source_of_string "[[-]]", data := fun _ => 3 },
              stdin := [], stdout := [], stderr := [] } =
          Except.ok (Machine.with_instruction_idx (Machine.with_cell
            { program := { instruction_idx := 0, data_idx := 0,
                           src_file_content := source_of_string "[[-]]", data := fun _ => 3 },
              stdin := [], stdout := [], stderr := [] } 0) 5)) ∧
      (3 = 0 →
        parse_and_execute_command true
            { program := { instruction_idx := 0, data_idx := 0,
                           src_file_content := source_of_string "[[-]]", data := fun _ => 3 },
              stdin := [], stdout := [], stderr := [] } =
          Except.ok (ProgramState.Done, Machine.with_instruction_idx
            { program := { instruction_idx := 0, data_idx := 0,
                           src_file_content := source_of_string "[[-]]", data := fun _ => 3 },
              stdin := [], stdout := [], stderr := [] } 5)) ∧
      is_matching_close (source_of_string "[[-]]").buffer 0 4 ∧
      ¬ is_matching_close (source_of_string "[[-]]").buffer 0 3 :=
  nested_clear_loop_clears_the_cell true
    { program := { instruction_idx := 0, data_idx := 0,
                   src_file_content := source_of_string "[[-]]", data := fun _ => 3 },
      stdin := [], stdout := [], stderr := [] }
    3 (by decide) rfl (by decide) rfl (by decide)

/-! ## Programs without brackets -/

/-- C19: for every non-empty program of length `n` that contains neither `[` nor
`]` and every input, `execute` from the initial state returns after exactly `n`
calls of `parse_and_execute_command` (`n` calls are enough and fewer are not),
the call number `k + 1` is made with the instruction cursor at position `k`, and
the run ends with the instruction cursor equal to `n`. -/
theorem bracket_free_program_runs_straight_through (char_signed : Bool) (src : FileContent)
    (input : List Nat)
    (hpos : 0 < src.size)
    (hsize : src.size < UINT64_RANGE)
    (hfree : ∀ c ∈ src.buffer, c ≠ CMD_OPEN ∧ c ≠ CMD_CLOSE) :
    ∃ m2, m2.program.instruction_idx = src.size ∧
      (∀ fuel, src.size ≤ fuel →
        execute fuel char_signed (init_machine src input) = Except.ok m2) ∧
      (∀ fuel, fuel < src.size →
        execute fuel char_signed (init_machine src input) =
          Except.error Fault.fuel_exhausted) ∧
      (∀ k, k < src.size →
        ∃ m, execute_steps k char_signed (init_machine src input) =
            Except.ok (ProgramState.Running, m) ∧
          m.program.instruction_idx = k) := by
  obtain ⟨m2, h1, _, h2, h3⟩ := execute_no_bracket char_signed (src.size - 1)
    (init_machine src input) hsize hfree
    (by show 0 + (src.size - 1 + 1) = src.size; omega)
    (by show (0 : Nat) < PROGRAM_DATA_SIZE; decide)
  refine ⟨m2, h1, ?_, ?_, ?_⟩
  · intro fuel hfuel
    exact h2 fuel (by omega)
  · intro fuel hfuel
    exact h3 fuel (by omega)
  · intro k hk
    obtain ⟨m, e1, e2, _⟩ := execute_steps_no_bracket char_signed k
      (init_machine src input) hsize hfree
      (by show 0 + k < src.size; omega)
      (by show (0 : Nat) < PROGRAM_DATA_SIZE; decide)
    refine ⟨m, e1, ?_⟩
    rw [e2]
    show 0 + k = k
    omega

/-- Witness of C19: the program `+>,.` with the input byte 65. -/
theorem bracket_free_program_runs_straight_through_witness :
    ∃ m2, m2.program.instruction_idx = (source_of_string "+>,.").size ∧
      (∀ fuel, (source_of_string "+>,.").size ≤ fuel →
        execute fuel true (init_machine (source_of_string "+>,.") [65]) = Except.ok m2) ∧
      (∀ fuel, fuel < (source_of_string "+>,.").size →
        execute fuel true (init_machine (source_of_string "+>,.") [65]) =
          Except.error Fault.fuel_exhausted) ∧
      (∀ k, k < (source_of_string "+>,.").size →
        ∃ m, execute_steps k true (init_machine (source_of_string "+>,.") [65]) =
            Except.ok (ProgramState.Running, m) ∧
          m.program.instruction_idx = k) :=
  bracket_free_program_runs_straight_through true (source_of_string "+>,.") [65]
    (by decide) (by decide) (by decide)

/-! ## Balanced programs -/

/-- C18: for every non-empty program whose `[` and `]` are balanced and every
input, in every state that the loop of `execute` reaches from the initial
state: the error stream is empty (no unmatched-loop error has been reported);
while the loop has not returned `Done` the instruction cursor is below the
length and the next call of `parse_and_execute_command` returns, so that
`get_current_command` and every read made by the scans is in bounds; and when
`Done` has been returned the instruction cursor equals the length exactly. -/
theorem balanced_program_never_reads_outside (char_signed : Bool) (src : FileContent)
    (input : List Nat) (st : ProgramState) (m : Machine)
    (hpos : 0 < src.size)
    (hsize : src.size < UINT64_RANGE)
    (hbal : is_balanced src.buffer)
    (hr : Reachable char_signed (init_machine src input) st m) :
    m.program.src_file_content = src ∧
      m.stderr = [] ∧
      (st = ProgramState.Running →
        m.program.instruction_idx < src.size ∧
        ∃ st1 m1, parse_and_execute_command char_signed m = Except.ok (st1, m1)) ∧
      (st = ProgramState.Done → m.program.instruction_idx = src.size) := by
  obtain ⟨hsrc, hidx, herr, hrun, hdone⟩ :=
    reachable_balanced char_signed src input hpos hsize hbal st m hr
  refine ⟨hsrc, herr, fun h => ⟨hrun h, ?_⟩, hdone⟩
  obtain ⟨m1, hstep, _⟩ := step_balanced char_signed m
    (by rw [hsrc]; exact hsize) (by rw [hsrc]; exact hbal) (by rw [hsrc]; exact hrun h) hidx
  exact ⟨_, m1, hstep⟩

/-- Witness of C18: the state of the program `+[-]` after its first step. -/
theorem balanced_program_never_reads_outside_witness :
    (Machine.with_instruction_idx
        (Machine.with_cell (init_machine (source_of_string "+[-]") []) 1) 1
      ).program.src_file_content = source_of_string "+[-]" ∧
      (Machine.with_instruction_idx
        (Machine.with_cell (init_machine (source_of_string "+[-]") []) 1) 1).stderr = [] ∧
      (ProgramState.Running = ProgramState.Running →
        (Machine.with_instruction_idx
          (Machine.with_cell (init_machine (source_of_string "+[-]") []) 1) 1
        ).program.instruction_idx < (source_of_string "+[-]").size ∧
        ∃ st1 m1, parse_and_execute_command true
          (Machine.with_instruction_idx
            (Machine.with_cell (init_machine (source_of_string "+[-]") []) 1) 1)
          = Except.ok (st1, m1)) ∧
      (ProgramState.Running = ProgramState.Done →
        (Machine.with_instruction_idx
          (Machine.with_cell (init_machine (source_of_string "+[-]") []) 1) 1
        ).program.instruction_idx = (source_of_string "+[-]").size) :=
  balanced_program_never_reads_outside true (source_of_string "+[-]") [] ProgramState.Running
    (Machine.with_instruction_idx
      (Machine.with_cell (init_machine (source_of_string "+[-]") []) 1) 1)
    (by decide) (by decide)
    ⟨fun k hk => by
      have hk5 : k ≤ 4 := hk
      have hcases : k = 0 ∨ k = 1 ∨ k = 2 ∨ k = 3 ∨ k = 4 := by omega
      rcases hcases with rfl | rfl | rfl | rfl | rfl <;> decide, by decide⟩
    (Reachable.step _ _ _ Reachable.start rfl)

/-! ## The Hello fragment -/

/-- C13: running the program
`++++++++[>++++[>++>+++>+++>+<<<<-]>+>+>->>+[<]<-]>>.>---.+++++++..+++.` from
the initial state, on any input and whether plain `char` is signed or not,
terminates: `execute` returns once 870 calls have been made, the last of them
returning `Done`, with the instruction cursor at the length of the program, the
error stream empty, the input unread, and the output equal to the five bytes
72, 101, 108, 108, 111 ("Hello"), of which the first is 72 ('H'). -/
theorem hello_fragment_outputs_hello (char_signed : Bool) (input : List Nat) :
    ∃ m,
      (∀ k, execute (870 + k) char_signed (init_machine hello_fragment input) = Except.ok m) ∧
      (∀ k, execute_steps (870 + k) char_signed (init_machine hello_fragment input) =
        Except.ok (ProgramState.Done, m)) ∧
      m.program.instruction_idx = hello_fragment.size ∧
      m.stdout = [72, 101, 108, 108, 111] ∧
      m.stdout.head? = some 72 ∧
      m.stderr = [] ∧
      m.stdin = input := by
  obtain ⟨m0, h0, hic, hout, herr⟩ := run_ends_with_true _ _ _ hello_fragment_run
  have hfree : ∀ c ∈ (init_machine hello_fragment []).program.src_file_content.buffer,
      c ≠ CMD_IN := by decide
  have h1 := execute_with_stdin char_signed true input 870 (init_machine hello_fragment [])
    hfree
  rw [h0] at h1
  have h2 : execute 870 char_signed (init_machine hello_fragment input)
      = Except.ok (m0.with_stdin input) := h1
  have h3 : ∀ k, execute (870 + k) char_signed (init_machine hello_fragment input)
      = Except.ok (m0.with_stdin input) :=
    fun k => execute_fuel_mono char_signed 870 _ _ k h2
  refine ⟨m0.with_stdin input, h3, ?_, ?_, ?_, ?_, ?_, rfl⟩
  · intro k
    exact execute_steps_of_execute char_signed _ _ _ (h3 k)
  · rw [with_stdin_program, hic]; rfl
  · rw [with_stdin_stdout, hout]
  · rw [with_stdin_stdout, hout]; rfl
  · rw [with_stdin_stderr, herr]

end Brainfuck
